import Mathlib

/-!
Verification development for the ChessZero web chess program.

The definitions below are a shallow embedding, in Lean, of the JavaScript
sources of the repository:

* the rules engine (`ChessGame` class): board, move legality, `makeMove`,
  `undoMove`, `toFEN`, game-end classification, draw rules;
* the MCTS engine (`ChessAI` / `MCTSNode` classes): state cloning, the
  search loop, rollout and the best-move fallback.

JavaScript's mutable objects are rendered as pure values: every method that
mutates `this` becomes a function returning the updated state.  Aliasing
effects of the source (the move record's `piece` field aliasing the board
piece that is mutated on promotion) are reproduced by storing the
post-mutation value.  Numbers are `Int`/`Nat` (the source only performs
small integer arithmetic on them); the source's RNG (`Math.random()`) and
the floating-point UCT formula are abstracted as oracle parameters, so
theorems quantify over every possible draw of the oracle.
-/

namespace Chess2

/-- Piece colors, `'white' | 'black'` in the source. -/
inductive Color where
  | white
  | black
  deriving DecidableEq, Repr

/-- `this.currentPlayer === 'white' ? 'black' : 'white'` -/
def Color.other : Color → Color
  | .white => .black
  | .black => .white

/-- Piece kinds, the `type` strings of the source. -/
inductive PieceType where
  | pawn
  | rook
  | knight
  | bishop
  | queen
  | king
  deriving DecidableEq, Repr

/-- A piece value `{ type, color }`. -/
structure Piece where
  type : PieceType
  color : Color
  deriving DecidableEq, Repr

/-- The 8×8 board: `Array(8) x Array(8)` of nullable pieces. -/
abbrev Board := List (List (Option Piece))

/-- Read `this.board[r][c]`.  Every read performed by the source happens
after a bounds check (or inside a loop over `0..7`), so in-bounds reads on
an 8×8 board agree with the JavaScript array access; out-of-bounds reads
yield `none`. -/
def getSq (b : Board) (r c : Int) : Option Piece :=
  if 0 ≤ r ∧ r < 8 ∧ 0 ≤ c ∧ c < 8 then
    ((b.getD r.toNat []).getD c.toNat none)
  else none

/-- Write `this.board[r][c] = v` (no-op out of bounds; the source never
writes out of bounds). -/
def setSq (b : Board) (r c : Int) (v : Option Piece) : Board :=
  if 0 ≤ r ∧ r < 8 ∧ 0 ≤ c ∧ c < 8 then
    b.set r.toNat ((b.getD r.toNat []).set c.toNat v)
  else b

/-- Game status strings of the source
(`'playing' | 'check' | 'checkmate' | 'stalemate' | 'draw'`). -/
inductive Status where
  | playing
  | check
  | checkmate
  | stalemate
  | draw
  deriving DecidableEq, Repr

/-- `'kingside' | 'queenside'`. -/
inductive BoardSide where
  | kingside
  | queenside
  deriving DecidableEq, Repr

/-- A `{ row, col }` coordinate pair. -/
structure Coord where
  row : Int
  col : Int
  deriving DecidableEq, Repr

/-- Castling rights of one color: `{ kingside: bool, queenside: bool }`. -/
structure SideRights where
  kingside : Bool
  queenside : Bool
  deriving DecidableEq, Repr

/-- `this.castlingRights`. -/
structure CastlingRights where
  white : SideRights
  black : SideRights
  deriving DecidableEq, Repr

def CastlingRights.get (cr : CastlingRights) : Color → SideRights
  | .white => cr.white
  | .black => cr.black

def SideRights.get (sr : SideRights) : BoardSide → Bool
  | .kingside => sr.kingside
  | .queenside => sr.queenside

/-- `this.capturedPieces`, one list per color; `push` appends at the end
and `pop` removes the last element, as JavaScript arrays do. -/
structure CapturedPieces where
  white : List Piece
  black : List Piece
  deriving DecidableEq, Repr

def CapturedPieces.push (cp : CapturedPieces) (c : Color) (p : Piece) : CapturedPieces :=
  match c with
  | .white => { cp with white := cp.white ++ [p] }
  | .black => { cp with black := cp.black ++ [p] }

def CapturedPieces.popColor (cp : CapturedPieces) (c : Color) : CapturedPieces :=
  match c with
  | .white => { cp with white := cp.white.dropLast }
  | .black => { cp with black := cp.black.dropLast }

/-- The move record pushed on `this.moveHistory` by `makeMove`.  The
source's `piece` field aliases the board piece object, which is mutated in
place on promotion before the record is read again; the embedding stores
the post-mutation value. -/
structure MoveRec where
  fromSq : Coord
  toSq : Coord
  piece : Piece
  captured : Option Piece
  castling : Option BoardSide
  enPassant : Option Piece
  promotion : Option PieceType
  deriving DecidableEq, Repr

/-- The fields of `ChessGame` read by the move-legality methods
(`isValidMove` and everything it calls): board, side to move, castling
rights and the en-passant target.  The source stores the en-passant target
as the string `` `${row}${col}` ``; for in-range coordinates that encoding
is in bijection with the coordinate pair stored here. -/
structure Position where
  board : Board
  currentPlayer : Color
  castlingRights : CastlingRights
  enPassantTarget : Option Coord
  deriving DecidableEq, Repr

/-- The full mutable state of a `ChessGame` instance.  The constructor's
`gameHistory` field is dead (never read or written after initialization)
and is omitted. -/
structure GameState where
  board : Board
  currentPlayer : Color
  capturedPieces : CapturedPieces
  gameState : Status
  moveHistory : List MoveRec
  fiftyMoveRule : Nat
  threefoldRepetition : List (String × Nat)
  castlingRights : CastlingRights
  enPassantTarget : Option Coord
  deriving DecidableEq, Repr

/-- Projection of a `GameState` onto the fields the legality cluster
reads. -/
def GameState.toPos (s : GameState) : Position :=
  { board := s.board
    currentPlayer := s.currentPlayer
    castlingRights := s.castlingRights
    enPassantTarget := s.enPassantTarget }

/-- `findKing`: row-major scan for the first king of `color`. -/
def findKing (b : Board) (color : Color) : Option Coord :=
  (List.range 8).findSome? fun row =>
    (List.range 8).findSome? fun col =>
      match getSq b (Int.ofNat row) (Int.ofNat col) with
      | some p => if p.type = PieceType.king ∧ p.color = color then
          some ⟨Int.ofNat row, Int.ofNat col⟩ else none
      | none => none

/-- The empty squares `canCastle` checks between king and rook: the loop
`for col = kingCol + dir; col ≠ rookCol` with the source's literal
`kingCol = 4` and `rookCol = 7 / 0`, unrolled. -/
def betweenCols : BoardSide → List Int
  | .kingside => [5, 6]
  | .queenside => [3, 2, 1]

/-- The transit squares `canCastle` checks for attacks: `kingCol + i*dir`
for `i = 1, 2`. -/
def transitCols : BoardSide → List Int
  | .kingside => [5, 6]
  | .queenside => [3, 2]

/-- `isPathClear`'s `while` loop walks from the square after the origin to
the square before the destination.  On the straight or diagonal geometries
at which the source calls it, the loop visits exactly
`max |Δrow| |Δcol| - 1` intermediate squares; the embedding iterates that
count explicitly (the source loop would not terminate on other
geometries, which are unreachable behind the movement-shape guards). -/
def pathClearAux (b : Board) (r c rs cs : Int) : Nat → Bool
  | 0 => true
  | n + 1 =>
    match getSq b r c with
    | some _ => false
    | none => pathClearAux b (r + rs) (c + cs) rs cs n

def isPathClear (b : Board) (fr fc tr tc : Int) : Bool :=
  let rowStep : Int := if tr > fr then 1 else if tr < fr then -1 else 0
  let colStep : Int := if tc > fc then 1 else if tc < fc then -1 else 0
  let steps : Nat := max (tr - fr).natAbs (tc - fc).natAbs
  pathClearAux b (fr + rowStep) (fc + colStep) rowStep colStep (steps - 1)

/-- `isPawnMoveValid`. -/
def isPawnMoveValid (p : Position) (piece : Piece) (fr fc tr tc : Int) : Bool :=
  let direction : Int := if piece.color = Color.white then -1 else 1
  let startRow : Int := if piece.color = Color.white then 6 else 1
  let rowDiff := tr - fr
  let colDiff := (tc - fc).natAbs
  if colDiff = 0 ∧ rowDiff = direction ∧ getSq p.board tr tc = none then
    true
  else if colDiff = 0 ∧ fr = startRow ∧ rowDiff = 2 * direction ∧
      getSq p.board tr tc = none ∧ getSq p.board (fr + direction) fc = none then
    true
  else if colDiff = 1 ∧ rowDiff = direction then
    if (match getSq p.board tr tc with
        | some t => decide (t.color ≠ piece.color)
        | none => false) then
      true
    else if p.enPassantTarget = some ⟨tr, tc⟩ then
      true
    else false
  else false

/-!
The legality cluster below is mutually recursive in the source:
`isPieceMovementValid` (for a king) calls `isKingMoveValid`, which calls
`canCastle`, which calls `isInCheck`/`wouldBeInCheck`, which call
`isPieceMovementValid` on every opposing piece — including the opposing
king, closing the cycle.  On states reachable through `makeMove` a
castling right implies the king is still on its home square and the cycle
closes after at most two `canCastle` frames; on arbitrary states the
JavaScript can recurse unboundedly (a stack overflow).  The embedding
makes the recursion total, and kernel-computable, by structural recursion
on a fuel argument: the knot is tied in `wouldBeInCheckF`, and the rest of
the cluster is written once, parameterized by the attack predicate `wbic`
it should consult.  The top-level entry points pass `checkFuel`, far
larger than any depth the source can reach without crashing; no theorem in
this file depends on the value taken at fuel exhaustion.
-/

/-- `isInCheck(color)` for a given attack predicate. -/
def isInCheckGen (wbic : Color → Int → Int → Bool) (b : Board) (color : Color) : Bool :=
  match findKing b color with
  | none => false
  | some k => wbic color k.row k.col

/-- `canCastle(color, side)` for a given attack predicate. -/
def canCastleGen (wbic : Color → Int → Int → Bool) (p : Position)
    (color : Color) (side : BoardSide) : Bool :=
  if !(p.castlingRights.get color).get side then false
  else if isInCheckGen wbic p.board color then false
  else
    let row : Int := if color = Color.white then 7 else 0
    if !(betweenCols side).all (fun col => (getSq p.board row col).isNone) then false
    else if (transitCols side).any (fun col => wbic color row col) then false
    else true

/-- `isKingMoveValid` for a given attack predicate. -/
def isKingMoveValidGen (wbic : Color → Int → Int → Bool) (p : Position)
    (piece : Piece) (fr fc tr tc : Int) : Bool :=
  let rowDiff := (tr - fr).natAbs
  let colDiff := (tc - fc).natAbs
  if rowDiff ≤ 1 ∧ colDiff ≤ 1 then true
  else if rowDiff = 0 ∧ colDiff = 2 then
    canCastleGen wbic p piece.color
      (if tc > fc then BoardSide.kingside else BoardSide.queenside)
  else false

/-- `isPieceMovementValid` for a given attack predicate. -/
def isPieceMovementValidGen (wbic : Color → Int → Int → Bool) (p : Position)
    (piece : Piece) (fr fc tr tc : Int) : Bool :=
  let rowDiff := tr - fr
  let colDiff := tc - fc
  let absRowDiff := rowDiff.natAbs
  let absColDiff := colDiff.natAbs
  match piece.type with
  | .pawn => isPawnMoveValid p piece fr fc tr tc
  | .rook => (rowDiff = 0 ∨ colDiff = 0) && isPathClear p.board fr fc tr tc
  | .bishop => (absRowDiff = absColDiff) && isPathClear p.board fr fc tr tc
  | .queen => (rowDiff = 0 ∨ colDiff = 0 ∨ absRowDiff = absColDiff) &&
      isPathClear p.board fr fc tr tc
  | .knight => (absRowDiff = 2 ∧ absColDiff = 1) ∨ (absRowDiff = 1 ∧ absColDiff = 2)
  | .king => isKingMoveValidGen wbic p piece fr fc tr tc

/-- `wouldBeInCheck(color, row, col)`: is the square attacked by any
opposing piece's pseudo-legal move?  Fuel is consumed at each nested
re-entry (each `canCastle` layer). -/
def wouldBeInCheckF : Nat → Position → Color → Int → Int → Bool
  | 0, _, _, _, _ => false
  | fuel + 1, p, color, row, col =>
    let opponentColor := color.other
    (List.range 8).any fun r =>
      (List.range 8).any fun c =>
        match getSq p.board (Int.ofNat r) (Int.ofNat c) with
        | some piece =>
          piece.color = opponentColor &&
            isPieceMovementValidGen (fun c2 r2 w2 => wouldBeInCheckF fuel p c2 r2 w2)
              p piece (Int.ofNat r) (Int.ofNat c) row col
        | none => false

/-- Fuel passed by the non-recursive entry points.  On every state on
which the JavaScript terminates, the `canCastle` nesting depth is below
this bound. -/
def checkFuel : Nat := 16

/-- `wouldBeInCheck` entry point. -/
def wouldBeInCheck (p : Position) (color : Color) (row col : Int) : Bool :=
  wouldBeInCheckF checkFuel p color row col

/-- `isInCheck` entry point. -/
def isInCheck (p : Position) (color : Color) : Bool :=
  isInCheckGen (fun c2 r2 w2 => wouldBeInCheckF checkFuel p c2 r2 w2) p.board color

/-- `canCastle` entry point. -/
def canCastle (p : Position) (color : Color) (side : BoardSide) : Bool :=
  canCastleGen (fun c2 r2 w2 => wouldBeInCheckF checkFuel p c2 r2 w2) p color side

/-- `isPieceMovementValid` entry point. -/
def isPieceMovementValid (p : Position) (piece : Piece) (fr fc tr tc : Int) : Bool :=
  isPieceMovementValidGen (fun c2 r2 w2 => wouldBeInCheckF checkFuel p c2 r2 w2)
    p piece fr fc tr tc

/-- `isKingMoveValid` entry point. -/
def isKingMoveValid (p : Position) (piece : Piece) (fr fc tr tc : Int) : Bool :=
  isKingMoveValidGen (fun c2 r2 w2 => wouldBeInCheckF checkFuel p c2 r2 w2)
    p piece fr fc tr tc

/-- `wouldLeaveKingInCheck`: temporarily plays the move on the board and
asks whether the mover's king is attacked.  The source restores the board
afterwards; the embedding simply evaluates on the modified copy.  The
source reads `movingPiece.color` unconditionally and would crash on an
empty origin square; every caller checks the origin first, so the `none`
branch is unreachable. -/
def wouldLeaveKingInCheck (p : Position) (fr fc tr tc : Int) : Bool :=
  match getSq p.board fr fc with
  | none => false
  | some movingPiece =>
    let b1 := setSq (setSq p.board tr tc (some movingPiece)) fr fc none
    isInCheck { p with board := b1 } movingPiece.color

/-- `isValidMove`. -/
def isValidMove (p : Position) (fr fc tr tc : Int) : Bool :=
  if fr < 0 ∨ fr > 7 ∨ fc < 0 ∨ fc > 7 ∨ tr < 0 ∨ tr > 7 ∨ tc < 0 ∨ tc > 7 then
    false
  else
    match getSq p.board fr fc with
    | none => false
    | some piece =>
      if piece.color ≠ p.currentPlayer then false
      else if (match getSq p.board tr tc with
          | some t => decide (t.color = piece.color)
          | none => false) then false
      else if !isPieceMovementValid p piece fr fc tr tc then false
      else if wouldLeaveKingInCheck p fr fc tr tc then false
      else true

/-- `getPieceChar`: the lowercase FEN letter of a piece type. -/
def getPieceChar : PieceType → Char
  | .pawn => 'p'
  | .rook => 'r'
  | .knight => 'n'
  | .bishop => 'b'
  | .queen => 'q'
  | .king => 'k'

/-- One board square rendered for FEN: uppercase for white, lowercase for
black (`getPieceChar` already returns lowercase). -/
def pieceFenStr (piece : Piece) : String :=
  String.singleton
    (if piece.color = Color.white then (getPieceChar piece.type).toUpper
     else getPieceChar piece.type)

/-- The squares of row `r` in column order, as `toFEN`'s inner loop reads
them. -/
def squaresOfRow (b : Board) (r : Nat) : List (Option Piece) :=
  (List.range 8).map fun c => getSq b (Int.ofNat r) (Int.ofNat c)

/-- `toFEN`'s inner loop over one row: accumulates `emptyCount` and flushes
it as a digit before each piece letter and at the end of the row. -/
def fenRowEncode : List (Option Piece) → Nat → String
  | [], 0 => ""
  | [], emptyCount + 1 => toString (emptyCount + 1)
  | none :: rest, emptyCount => fenRowEncode rest (emptyCount + 1)
  | some piece :: rest, 0 => pieceFenStr piece ++ fenRowEncode rest 0
  | some piece :: rest, emptyCount + 1 =>
    toString (emptyCount + 1) ++ pieceFenStr piece ++ fenRowEncode rest 0

/-- The piece-placement field of `toFEN`: rows 0 to 7 (rank 8 down to
rank 1), `'/'` after every row but the last. -/
def fenPlacement (b : Board) : String :=
  (List.range 8).foldl
    (fun acc row =>
      acc ++ fenRowEncode (squaresOfRow b row) 0 ++ (if row < 7 then "/" else ""))
    ""

/-- The castling field: four conditional letters, `"-"` when all are
absent (`castling || '-'`). -/
def castlingField (cr : CastlingRights) : String :=
  let castling :=
    (if cr.white.kingside then "K" else "") ++
    (if cr.white.queenside then "Q" else "") ++
    (if cr.black.kingside then "k" else "") ++
    (if cr.black.queenside then "q" else "")
  if castling = "" then "-" else castling

/-- The en-passant field: the source stores the target as the string
`` `${row}${col}` `` and prints it verbatim (`this.enPassantTarget || '-'`);
this is the internal row–col digit pair, not an algebraic square name. -/
def epField : Option Coord → String
  | some t => toString t.row ++ toString t.col
  | none => "-"

/-- `Math.ceil(this.moveHistory.length / 2)`. -/
def fullmoveField (historyLength : Nat) : Nat := (historyLength + 1) / 2

/-- `toFEN`. -/
def toFEN (s : GameState) : String :=
  fenPlacement s.board ++ " " ++
  (if s.currentPlayer = Color.white then "w" else "b") ++ " " ++
  castlingField s.castlingRights ++ " " ++
  epField s.enPassantTarget ++ " " ++
  toString s.fiftyMoveRule ++ " " ++
  toString (fullmoveField s.moveHistory.length)

/-- The repetition key: `toFEN().split(' ').slice(0, 3).join(' ')` — the
first three FEN fields (placement, active color, castling).  None of the
three fields contains a space, so the split/slice/join is exactly this
concatenation. -/
def positionKey (p : Position) : String :=
  fenPlacement p.board ++ " " ++
  (if p.currentPlayer = Color.white then "w" else "b") ++ " " ++
  castlingField p.castlingRights

/-- Read a count from the repetition table (`this.threefoldRepetition[fen]`,
`undefined` counting as 0). -/
def lookupCount (table : List (String × Nat)) (key : String) : Nat :=
  match table.find? (fun e => e.1 = key) with
  | some e => e.2
  | none => 0

/-- `this.threefoldRepetition[fen] = (this.threefoldRepetition[fen] || 0) + 1`.
JavaScript object semantics: an existing key keeps its position, a new key
is appended. -/
def bumpCount (table : List (String × Nat)) (key : String) : List (String × Nat) :=
  if table.any (fun e => e.1 = key) then
    table.map (fun e => if e.1 = key then (e.1, e.2 + 1) else e)
  else table ++ [(key, 1)]

/-- `hasValidMoves(color)`: scans every origin square holding a piece of
`color` and every destination. -/
def hasValidMoves (p : Position) (color : Color) : Bool :=
  (List.range 8).any fun fr =>
    (List.range 8).any fun fc =>
      (match getSq p.board (Int.ofNat fr) (Int.ofNat fc) with
       | some piece => decide (piece.color = color)
       | none => false) &&
      (List.range 8).any fun tr =>
        (List.range 8).any fun tc =>
          isValidMove p (Int.ofNat fr) (Int.ofNat fc) (Int.ofNat tr) (Int.ofNat tc)

/-- `isThreefoldRepetition`. -/
def isThreefoldRepetitionB (s : GameState) : Bool :=
  lookupCount s.threefoldRepetition (positionKey s.toPos) ≥ 3

/-- `isInsufficientMaterial`. -/
def isInsufficientMaterial (b : Board) : Bool :=
  let pieces := (List.range 8).foldl
    (fun acc r => (List.range 8).foldl
      (fun acc c =>
        match getSq b (Int.ofNat r) (Int.ofNat c) with
        | some piece => acc ++ [piece]
        | none => acc) acc) []
  if pieces.length = 2 then true
  else if pieces.length = 3 then
    let nonKings := pieces.filter (fun piece => piece.type ≠ PieceType.king)
    nonKings.length = 1 &&
      (match nonKings with
       | [piece] => decide (piece.type = PieceType.bishop ∨ piece.type = PieceType.knight)
       | _ => false)
  else false

/-- `updateGameState`, as a pure classification of the state it reads. -/
def computeGameState (s : GameState) : Status :=
  let inCheck := isInCheck s.toPos s.currentPlayer
  let hasMoves := hasValidMoves s.toPos s.currentPlayer
  if inCheck ∧ ¬hasMoves then .checkmate
  else if ¬inCheck ∧ ¬hasMoves then .stalemate
  else if inCheck then .check
  else if s.fiftyMoveRule ≥ 50 then .draw
  else if isThreefoldRepetitionB s then .draw
  else if isInsufficientMaterial s.board then .draw
  else .playing

/-- `updateCastlingRights(piece, fromRow, fromCol)`. -/
def updateCastlingRights (piece : Piece) (fr fc : Int) (cr : CastlingRights) : CastlingRights :=
  if piece.type = PieceType.king then
    match piece.color with
    | .white => { cr with white := ⟨false, false⟩ }
    | .black => { cr with black := ⟨false, false⟩ }
  else if piece.type = PieceType.rook then
    if piece.color = Color.white ∧ fr = 7 then
      let cr1 := if fc = 0 then { cr with white := { cr.white with queenside := false } } else cr
      if fc = 7 then { cr1 with white := { cr1.white with kingside := false } } else cr1
    else if piece.color = Color.black ∧ fr = 0 then
      let cr1 := if fc = 0 then { cr with black := { cr.black with queenside := false } } else cr
      if fc = 7 then { cr1 with black := { cr1.black with kingside := false } } else cr1
    else cr
  else cr

/-- The successful branch of `makeMove` (everything after the
`isValidMove` guard) up to, but not including, `updateGameState` and the
repetition-table update, for a mover `piece` read off the origin square.
Field updates follow the source order; `movedPiece` reflects the in-place
`piece.type = promotionPiece` mutation, which happens before the piece is
placed, before the move record is read again, and before
`updateCastlingRights` and the fifty-move test read `piece.type`. -/
def makeMovePre (s : GameState) (fr fc tr tc : Int)
    (promotionPiece : PieceType) (piece : Piece) : GameState :=
  let capturedPiece := getSq s.board tr tc
  -- castling: relocate the rook
  let castlingSide : Option BoardSide :=
    if piece.type = PieceType.king ∧ (tc - fc).natAbs = 2 then
      some (if tc > fc then BoardSide.kingside else BoardSide.queenside)
    else none
  let board1 :=
    match castlingSide with
    | some side =>
      let rookFromCol : Int := if side = BoardSide.kingside then 7 else 0
      let rookToCol : Int := if side = BoardSide.kingside then 5 else 3
      setSq (setSq s.board tr rookToCol (getSq s.board tr rookFromCol)) tr rookFromCol none
    | none => s.board
  -- en passant: remove the captured pawn (not on the destination square).
  -- The source dereferences `capturedPawn.color`, which cannot be null on
  -- any state whose en-passant target was produced by `makeMove`; the
  -- `none` fallback below is unreachable under the `epOk` hypothesis the
  -- round-trip theorems assume.
  let epFires := piece.type = PieceType.pawn ∧
    s.enPassantTarget = some ⟨tr, tc⟩ ∧ capturedPiece = none
  let capturedRow : Int := if piece.color = Color.white then tr + 1 else tr - 1
  let (board2, captured2, epCapturedPawn) :=
    if epFires then
      match getSq board1 capturedRow tc with
      | some capturedPawn =>
        (setSq board1 capturedRow tc none,
         s.capturedPieces.push capturedPawn.color capturedPawn,
         some capturedPawn)
      | none => (setSq board1 capturedRow tc none, s.capturedPieces, none)
    else (board1, s.capturedPieces, none)
  -- pawn promotion (in-place type mutation on the aliased piece object)
  let isPromo := piece.type = PieceType.pawn ∧
    ((piece.color = Color.white ∧ tr = 0) ∨ (piece.color = Color.black ∧ tr = 7))
  let movedPiece := if isPromo then { piece with type := promotionPiece } else piece
  -- en-passant target for the next move
  let newEp : Option Coord :=
    if piece.type = PieceType.pawn ∧ (tr - fr).natAbs = 2 then
      some ⟨fr + (tr - fr) / 2, fc⟩
    else none
  -- make the move
  let board3 := setSq (setSq board2 tr tc (some movedPiece)) fr fc none
  -- captured pieces
  let captured3 :=
    match capturedPiece with
    | some cp => captured2.push cp.color cp
    | none => captured2
  -- castling rights (reads the aliased, possibly promoted piece)
  let rights1 := updateCastlingRights movedPiece fr fc s.castlingRights
  -- fifty-move rule (also reads the aliased piece: a quiet promotion does
  -- not reset the counter in the source)
  let fifty1 := if movedPiece.type = PieceType.pawn ∨ capturedPiece.isSome
    then 0 else s.fiftyMoveRule + 1
  let moveRec : MoveRec :=
    { fromSq := ⟨fr, fc⟩, toSq := ⟨tr, tc⟩, piece := movedPiece,
      captured := capturedPiece, castling := castlingSide,
      enPassant := epCapturedPawn,
      promotion := if isPromo then some promotionPiece else none }
  { board := board3
    currentPlayer := s.currentPlayer.other
    capturedPieces := captured3
    gameState := s.gameState
    moveHistory := s.moveHistory ++ [moveRec]
    fiftyMoveRule := fifty1
    threefoldRepetition := s.threefoldRepetition
    castlingRights := rights1
    enPassantTarget := newEp }

/-- The full successful branch of `makeMove`: commit the move, recompute
the game state, then bump the repetition table — in this order, so the
occurrence created by this move is not seen by the classifier. -/
def makeMoveCommit (s : GameState) (fr fc tr tc : Int)
    (promotionPiece : PieceType) (piece : Piece) : GameState :=
  let s1 := makeMovePre s fr fc tr tc promotionPiece piece
  let s2 := { s1 with gameState := computeGameState s1 }
  { s2 with threefoldRepetition := bumpCount s2.threefoldRepetition (positionKey s2.toPos) }

/-- `makeMove(fromRow, fromCol, toRow, toCol, promotionPiece = 'queen')`:
returns `false` and leaves the state untouched when the move fails the
legality check, otherwise commits the move and returns `true`. -/
def makeMove (s : GameState) (fr fc tr tc : Int)
    (promotionPiece : PieceType := PieceType.queen) : Bool × GameState :=
  if isValidMove s.toPos fr fc tr tc then
    match getSq s.board fr fc with
    | some piece => (true, makeMoveCommit s fr fc tr tc promotionPiece piece)
    | none => (false, s)  -- unreachable: `isValidMove` requires a piece
  else (false, s)

/-- `undoMove`. -/
def undoMove (s : GameState) : Bool × GameState :=
  match s.moveHistory.getLast? with
  | none => (false, s)
  | some lastMove =>
    let rest := s.moveHistory.dropLast
    -- restore piece position
    let b1 := setSq s.board lastMove.fromSq.row lastMove.fromSq.col (some lastMove.piece)
    let b2 := setSq b1 lastMove.toSq.row lastMove.toSq.col lastMove.captured
    -- reverse a castling rook move
    let b3 :=
      match lastMove.castling with
      | some side =>
        let row : Int := if lastMove.piece.color = Color.white then 7 else 0
        let rookFromCol : Int := if side = BoardSide.kingside then 5 else 3
        let rookToCol : Int := if side = BoardSide.kingside then 7 else 0
        setSq (setSq b2 row rookToCol (getSq b2 row rookFromCol)) row rookFromCol none
      | none => b2
    -- restore an en-passant captured pawn
    let (b4, cap1) :=
      match lastMove.enPassant with
      | some pw =>
        let capturedRow : Int :=
          if lastMove.piece.color = Color.white then lastMove.toSq.row + 1
          else lastMove.toSq.row - 1
        (setSq b3 capturedRow lastMove.toSq.col (some pw),
         s.capturedPieces.popColor pw.color)
      | none => (b3, s.capturedPieces)
    -- revert a promotion: `lastMove.piece.type = 'pawn'` mutates the object
    -- just placed on the origin square
    let b5 :=
      match lastMove.promotion with
      | some _ => setSq b4 lastMove.fromSq.row lastMove.fromSq.col
          (some { lastMove.piece with type := PieceType.pawn })
      | none => b4
    let cap2 :=
      if lastMove.captured.isSome ∧ lastMove.enPassant.isNone then
        match lastMove.captured with
        | some cp => cap1.popColor cp.color
        | none => cap1
      else cap1
    let s1 : GameState :=
      { s with
        board := b5
        capturedPieces := cap2
        moveHistory := rest
        currentPlayer := s.currentPlayer.other }
    -- castling rights, en-passant target, fifty-move counter and the
    -- repetition table are NOT restored (the source's TODO)
    (true, { s1 with gameState := computeGameState s1 })

/-- The move objects produced by `getAllValidMoves`. -/
structure SimpleMove where
  fromSq : Coord
  toSq : Coord
  piece : Piece
  deriving DecidableEq, Repr

/-- `getAllValidMoves(color)`: all legal moves in scan order. -/
def getAllValidMoves (p : Position) (color : Color) : List SimpleMove :=
  (List.range 8).foldl (fun acc fr =>
    (List.range 8).foldl (fun acc fc =>
      match getSq p.board (Int.ofNat fr) (Int.ofNat fc) with
      | some piece =>
        if piece.color = color then
          (List.range 8).foldl (fun acc tr =>
            (List.range 8).foldl (fun acc tc =>
              if isValidMove p (Int.ofNat fr) (Int.ofNat fc) (Int.ofNat tr) (Int.ofNat tc) then
                acc ++ [{ fromSq := ⟨Int.ofNat fr, Int.ofNat fc⟩,
                          toSq := ⟨Int.ofNat tr, Int.ofNat tc⟩,
                          piece := piece }]
              else acc) acc) acc
        else acc
      | none => acc) acc) []

/-- `initializeBoard`: rank-8 black pieces on row 0, black pawns on row 1,
white pawns on row 6, rank-1 white pieces on row 7. -/
def initialBoard : Board :=
  [ [some ⟨.rook, .black⟩, some ⟨.knight, .black⟩, some ⟨.bishop, .black⟩,
     some ⟨.queen, .black⟩, some ⟨.king, .black⟩, some ⟨.bishop, .black⟩,
     some ⟨.knight, .black⟩, some ⟨.rook, .black⟩],
    [some ⟨.pawn, .black⟩, some ⟨.pawn, .black⟩, some ⟨.pawn, .black⟩,
     some ⟨.pawn, .black⟩, some ⟨.pawn, .black⟩, some ⟨.pawn, .black⟩,
     some ⟨.pawn, .black⟩, some ⟨.pawn, .black⟩],
    [none, none, none, none, none, none, none, none],
    [none, none, none, none, none, none, none, none],
    [none, none, none, none, none, none, none, none],
    [none, none, none, none, none, none, none, none],
    [some ⟨.pawn, .white⟩, some ⟨.pawn, .white⟩, some ⟨.pawn, .white⟩,
     some ⟨.pawn, .white⟩, some ⟨.pawn, .white⟩, some ⟨.pawn, .white⟩,
     some ⟨.pawn, .white⟩, some ⟨.pawn, .white⟩],
    [some ⟨.rook, .white⟩, some ⟨.knight, .white⟩, some ⟨.bishop, .white⟩,
     some ⟨.queen, .white⟩, some ⟨.king, .white⟩, some ⟨.bishop, .white⟩,
     some ⟨.knight, .white⟩, some ⟨.rook, .white⟩] ]

/-- The `ChessGame` constructor's state. -/
def initialGameState : GameState :=
  { board := initialBoard
    currentPlayer := .white
    capturedPieces := ⟨[], []⟩
    gameState := .playing
    moveHistory := []
    fiftyMoveRule := 0
    threefoldRepetition := []
    castlingRights := ⟨⟨true, true⟩, ⟨true, true⟩⟩
    enPassantTarget := none }

/-- `ChessUI.getValidMovesForSquare(row, col)` from `main.js`: the list of
destination squares accepted by `isValidMove` from a given origin. -/
def getValidMovesForSquare (p : Position) (row col : Int) : List Coord :=
  (List.range 8).foldl (fun acc tr =>
    (List.range 8).foldl (fun acc tc =>
      if isValidMove p row col (Int.ofNat tr) (Int.ofNat tc) then
        acc ++ [⟨Int.ofNat tr, Int.ofNat tc⟩]
      else acc) acc) []

/-- Spec-side inverse of the FEN letter encoding: the piece denoted by a
placement letter (uppercase = white, lowercase = black), `none` for
non-letter characters. -/
def pieceOfFenChar (c : Char) : Option Piece :=
  match c with
  | 'P' => some ⟨.pawn, .white⟩
  | 'R' => some ⟨.rook, .white⟩
  | 'N' => some ⟨.knight, .white⟩
  | 'B' => some ⟨.bishop, .white⟩
  | 'Q' => some ⟨.queen, .white⟩
  | 'K' => some ⟨.king, .white⟩
  | 'p' => some ⟨.pawn, .black⟩
  | 'r' => some ⟨.rook, .black⟩
  | 'n' => some ⟨.knight, .black⟩
  | 'b' => some ⟨.bishop, .black⟩
  | 'q' => some ⟨.queen, .black⟩
  | 'k' => some ⟨.king, .black⟩
  | _ => none

/-- Spec-side decoder for one encoded rank: a digit stands for a run of
that many empty squares, a letter for the piece it denotes. -/
def fenRowDecodeList : List Char → List (Option Piece)
  | [] => []
  | c :: rest =>
    (if '1' ≤ c ∧ c ≤ '8' then List.replicate (c.toNat - '0'.toNat) none
     else match pieceOfFenChar c with
       | some piece => [some piece]
       | none => []) ++ fenRowDecodeList rest

/-- Number of legal moves for the side to move. -/
def legalMoveCount (s : GameState) : Nat :=
  (getAllValidMoves s.toPos s.currentPlayer).length

/-- Perft depth 2 from a state: for every legal move, commit it with
`makeMove` and count the opponent's legal replies; sum over all first
moves. -/
def perft2Total (s : GameState) : Nat :=
  ((getAllValidMoves s.toPos s.currentPlayer).map (fun m =>
    let s1 := (makeMove s m.fromSq.row m.fromSq.col m.toSq.row m.toSq.col).2
    legalMoveCount s1)).sum

/-! Concrete states used by counterexamples and witnesses. -/

/-- White king a1, black king h8, white rook e4; no castling rights. -/
def c3Board : Board :=
  [ [none, none, none, none, none, none, none, some ⟨.king, .black⟩],
    [none, none, none, none, none, none, none, none],
    [none, none, none, none, none, none, none, none],
    [none, none, none, none, none, none, none, none],
    [none, none, none, none, some ⟨.rook, .white⟩, none, none, none],
    [none, none, none, none, none, none, none, none],
    [none, none, none, none, none, none, none, none],
    [some ⟨.king, .white⟩, none, none, none, none, none, none, none] ]

/-- A game position with the halfmove counter at 49 plies, White to move. -/
def c3Base : GameState :=
  { board := c3Board
    currentPlayer := .white
    capturedPieces := ⟨[], []⟩
    gameState := .playing
    moveHistory := []
    fiftyMoveRule := 49
    threefoldRepetition := []
    castlingRights := ⟨⟨false, false⟩, ⟨false, false⟩⟩
    enPassantTarget := none }

/-- The state after the quiet rook move e4–d4 from `c3Base`: the halfmove
counter reaches 50 plies. -/
def c3After : GameState := (makeMove c3Base 4 4 4 3).2

/-- `c3Base` with the counter already at 50. -/
def c3DrawState : GameState := { c3Base with fiftyMoveRule := 50 }

/-- White king a1 in check from a black rook on a4, with legal replies. -/
def c3CheckState : GameState :=
  { c3Base with
    fiftyMoveRule := 0
    board :=
      [ [none, none, none, none, none, none, none, some ⟨.king, .black⟩],
        [none, none, none, none, none, none, none, none],
        [none, none, none, none, none, none, none, none],
        [none, none, none, none, none, none, none, none],
        [some ⟨.rook, .black⟩, none, none, none, none, none, none, none],
        [none, none, none, none, none, none, none, none],
        [none, none, none, none, none, none, none, none],
        [some ⟨.king, .white⟩, none, none, none, none, none, none, none] ] }

/-- Kings on e1/e8 and knights on b1/b8; no castling rights.  Knight
shuffles from here repeat the position every four plies without touching
the fifty-move or material rules. -/
def c4Board : Board :=
  [ [none, some ⟨.knight, .black⟩, none, none, some ⟨.king, .black⟩, none, none, none],
    [none, none, none, none, none, none, none, none],
    [none, none, none, none, none, none, none, none],
    [none, none, none, none, none, none, none, none],
    [none, none, none, none, none, none, none, none],
    [none, none, none, none, none, none, none, none],
    [none, none, none, none, none, none, none, none],
    [none, some ⟨.knight, .white⟩, none, none, some ⟨.king, .white⟩, none, none, none] ]

def c4Base : GameState :=
  { board := c4Board
    currentPlayer := .white
    capturedPieces := ⟨[], []⟩
    gameState := .playing
    moveHistory := []
    fiftyMoveRule := 0
    threefoldRepetition := []
    castlingRights := ⟨⟨false, false⟩, ⟨false, false⟩⟩
    enPassantTarget := none }

/-- Twelve plies of knight shuffling: both knights hop out and back three
times, so the starting position recurs after plies 4, 8 and 12. -/
def c4Moves : List (Int × Int × Int × Int) :=
  [(7, 1, 5, 2), (0, 1, 2, 2), (5, 2, 7, 1), (2, 2, 0, 1),
   (7, 1, 5, 2), (0, 1, 2, 2), (5, 2, 7, 1), (2, 2, 0, 1),
   (7, 1, 5, 2), (0, 1, 2, 2), (5, 2, 7, 1), (2, 2, 0, 1)]

def playMoves (s : GameState) (moves : List (Int × Int × Int × Int)) : GameState :=
  moves.foldl (fun st m => (makeMove st m.1 m.2.1 m.2.2.1 m.2.2.2).2) s

def c4g4 : GameState := playMoves c4Base (c4Moves.take 4)
def c4g8 : GameState := playMoves c4Base (c4Moves.take 8)
def c4g11 : GameState := playMoves c4Base (c4Moves.take 11)
def c4g12 : GameState := playMoves c4Base c4Moves

/-- The repetition key of the position reached by the knight move
b1–c3 from `c4Base`. -/
def c4WitKey : String := positionKey (makeMove c4Base 7 1 5 2).2.toPos

/-- `c4Base` with that key already recorded three times, as after three
earlier occurrences of the position the move is about to reach. -/
def c4WitBase : GameState := { c4Base with threefoldRepetition := [(c4WitKey, 3)] }

/-- Pointwise implication between castling-rights records: every right set
in `a` is also set in `b` (`a` is at most `b`). -/
def rightsLE (a b : CastlingRights) : Prop :=
  (a.white.kingside = true → b.white.kingside = true) ∧
  (a.white.queenside = true → b.white.queenside = true) ∧
  (a.black.kingside = true → b.black.kingside = true) ∧
  (a.black.queenside = true → b.black.queenside = true)

/-- One operation of the move interface: a `makeMove` call (with its four
coordinates and promotion choice) or an `undoMove` call. -/
def applyOp (s : GameState) : (Int × Int × Int × Int × PieceType) ⊕ Unit → GameState
  | .inl (fr, fc, tr, tc, promo) => (makeMove s fr fc tr tc promo).2
  | .inr () => (undoMove s).2

/-- A whole sequence of `makeMove`/`undoMove` operations. -/
def applyOps (s : GameState) (ops : List ((Int × Int × Int × Int × PieceType) ⊕ Unit)) :
    GameState :=
  ops.foldl applyOp s

/-- Kings and rooks on their home squares with full castling rights, used
to witness the rights-clearing clauses of C9. -/
def c9State : GameState :=
  { board :=
      [ [some ⟨.rook, .black⟩, none, none, none, some ⟨.king, .black⟩, none, none,
         some ⟨.rook, .black⟩],
        [none, none, none, none, none, none, none, none],
        [none, none, none, none, none, none, none, none],
        [none, none, none, none, none, none, none, none],
        [none, none, none, none, none, none, none, none],
        [none, none, none, none, none, none, none, none],
        [none, none, none, none, none, none, none, none],
        [some ⟨.rook, .white⟩, none, none, none, some ⟨.king, .white⟩, none, none,
         some ⟨.rook, .white⟩] ]
    currentPlayer := .white
    capturedPieces := ⟨[], []⟩
    gameState := .playing
    moveHistory := []
    fiftyMoveRule := 0
    threefoldRepetition := []
    castlingRights := ⟨⟨true, true⟩, ⟨true, true⟩⟩
    enPassantTarget := none }

/-- The board shape every state reachable from the constructor has: 8 rows
of 8 squares. -/
def boardWF (b : Board) : Bool :=
  b.length == 8 && b.all (fun row => row.length == 8)

/-- En-passant soundness, true of every state `makeMove` produces: if a
target square is set, the square behind it (from the mover's point of
view) holds an opposing piece — the pawn that just double-pushed.  The
source dereferences that piece's `color` without a null check. -/
def epOk (s : GameState) : Bool :=
  match s.enPassantTarget with
  | none => true
  | some t =>
    match getSq s.board (t.row + (if s.currentPlayer = Color.white then 1 else -1)) t.col with
    | some pw => decide (pw.color ≠ s.currentPlayer)
    | none => false

/-- Every king of color `c` stands on its home square (row 7 for white,
row 0 for black, column 4). -/
def kingsHome (b : Board) (c : Color) : Bool :=
  (List.range 8).all fun r =>
    (List.range 8).all fun cc =>
      match getSq b (Int.ofNat r) (Int.ofNat cc) with
      | some p =>
        if p.type = PieceType.king ∧ p.color = c then
          decide ((Int.ofNat r) = (if c = Color.white then 7 else 0) ∧ (Int.ofNat cc) = 4)
        else true
      | none => true

/-- Castling-rights soundness, true of every reachable state: a remaining
right implies the king never moved, hence stands on its home square
(`updateCastlingRights` clears both rights whenever the king moves). -/
def castleWF (s : GameState) : Bool :=
  (!(s.castlingRights.white.kingside || s.castlingRights.white.queenside) ||
    kingsHome s.board .white) &&
  (!(s.castlingRights.black.kingside || s.castlingRights.black.queenside) ||
    kingsHome s.board .black)

/-- 1. e4 a6 from the initial position, then the white king step e1–e2. -/
def c2s1 : GameState := (makeMove initialGameState 6 4 4 4).2
def c2s2 : GameState := (makeMove c2s1 1 0 2 0).2
def c2s3 : GameState := (makeMove c2s2 7 4 6 4).2
def c2u : GameState := (undoMove c2s3).2

/-! ### The AI engine (`src/js/ai-engine.js`)

`Math.random()` draws and the float-valued UCT comparison are supplied by an
oracle: a stream of naturals consumed from the front.  Theorems about the
engine quantify over every oracle, so they hold for every sequence of draws
the JavaScript engine could make. -/

/-- The oracle stream.  An exhausted stream keeps answering 0. -/
def Rand : Type := List Nat

def Rand.next (r : Rand) : Nat × Rand :=
  match r with
  | [] => (0, [])
  | n :: rest => (n, rest)

/-- `Math.floor(Math.random() * len)`: an oracle-chosen index below `len`. -/
def Rand.pick (r : Rand) (len : Nat) : Nat × Rand :=
  let (n, r') := r.next
  (n % len, r')

/-- `Math.random() < p` for a fixed threshold `p`: an oracle-chosen coin. -/
def Rand.coin (r : Rand) : Bool × Rand :=
  let (n, r') := r.next
  (decide (n = 0), r')

/-- `ChessAI.cloneGameState`: a fresh `ChessGame` whose live fields are
rebuilt from the input — the board row by row with every piece object
re-created (`{ ...piece }`), the captured-piece arrays, the castling-rights
objects and the repetition table copied, the scalar fields assigned. -/
def cloneGameState (s : GameState) : GameState :=
  { board := s.board.map (fun row => row.map (fun cell =>
      match cell with
      | some piece => some { type := piece.type, color := piece.color }
      | none => none))
    currentPlayer := s.currentPlayer
    gameState := s.gameState
    capturedPieces := { white := s.capturedPieces.white
                        black := s.capturedPieces.black }
    castlingRights := { white := { kingside := s.castlingRights.white.kingside
                                   queenside := s.castlingRights.white.queenside }
                        black := { kingside := s.castlingRights.black.kingside
                                   queenside := s.castlingRights.black.queenside } }
    enPassantTarget := s.enPassantTarget
    fiftyMoveRule := s.fiftyMoveRule
    moveHistory := s.moveHistory
    threefoldRepetition := s.threefoldRepetition }

/-- `MCTSNode`: the state the node owns, the move that led to it, its
children and the visit/win statistics.  The source's `parent` pointer is
represented by the tree structure itself (backpropagation climbs the
recursion); `wins` accumulates simulation results, exact rationals here. -/
inductive MCTSNodeM : Type where
  | mk (state : GameState) (move : Option SimpleMove) (children : List MCTSNodeM)
      (visits : Nat) (wins : Rat) : MCTSNodeM

def MCTSNodeM.state : MCTSNodeM → GameState
  | .mk s _ _ _ _ => s

def MCTSNodeM.move : MCTSNodeM → Option SimpleMove
  | .mk _ m _ _ _ => m

def MCTSNodeM.children : MCTSNodeM → List MCTSNodeM
  | .mk _ _ c _ _ => c

def MCTSNodeM.visits : MCTSNodeM → Nat
  | .mk _ _ _ v _ => v

def MCTSNodeM.wins : MCTSNodeM → Rat
  | .mk _ _ _ _ w => w

/-- A freshly constructed node: no children, no visits. -/
def MCTSNodeM.new (s : GameState) (mv : Option SimpleMove) : MCTSNodeM :=
  .mk s mv [] 0 0

/-- One `backpropagate` step at this node: `visits++; wins += result`. -/
def MCTSNodeM.bump : MCTSNodeM → Rat → MCTSNodeM
  | .mk s m c v w, res => .mk s m c (v + 1) (w + res)

def MCTSNodeM.setChildren : MCTSNodeM → List MCTSNodeM → MCTSNodeM
  | .mk s m _ v w, c => .mk s m c v w

/-- `gameState === 'checkmate' || 'stalemate' || 'draw'`, computed in the
constructor and cached; the node's state never changes, so recomputing it is
the same thing. -/
def MCTSNodeM.isTerminal (n : MCTSNodeM) : Bool :=
  decide (n.state.gameState = Status.checkmate ∨
    n.state.gameState = Status.stalemate ∨ n.state.gameState = Status.draw)

/-- `isFullyExpanded`: terminal, or as many children as legal moves. -/
def MCTSNodeM.isFullyExpanded (n : MCTSNodeM) : Bool :=
  n.isTerminal ||
    n.children.length == (getAllValidMoves n.state.toPos n.state.currentPlayer).length

def maxSimulations : Nat := 1000

def maxDepth : Nat := 50

/-- The `pieceValues` table of `evaluateMaterial`. -/
def pieceValue : PieceType → Nat
  | .pawn => 1
  | .knight => 3
  | .bishop => 3
  | .rook => 5
  | .queen => 9
  | .king => 0

/-- `evaluateMaterial(gameState, player)`: the player's share of the material
on the board, `1/2` on an empty board. -/
def evaluateMaterial (s : GameState) (player : Color) : Rat :=
  let counts := (List.range 8).foldl (fun acc row =>
    (List.range 8).foldl (fun acc col =>
      match getSq s.board (Int.ofNat row) (Int.ofNat col) with
      | some piece =>
        if piece.color = player then (acc.1 + pieceValue piece.type, acc.2)
        else (acc.1, acc.2 + pieceValue piece.type)
      | none => acc) acc) ((0 : Nat), (0 : Nat))
  if counts.1 + counts.2 = 0 then 1/2
  else (counts.1 : Rat) / ((counts.1 + counts.2 : Nat) : Rat)

/-- `evaluateTerminalPosition(gameState, originalPlayer)`: 0/1 for a
checkmate against/for the original player, `1/2` for stalemate and draw,
material evaluation for an unfinished game. -/
def evaluateTerminalPosition (s : GameState) (originalPlayer : Color) : Rat :=
  match s.gameState with
  | .checkmate => if s.currentPlayer = originalPlayer then 0 else 1
  | .stalemate => 1/2
  | .draw => 1/2
  | _ => evaluateMaterial s originalPlayer

/-- An oracle-chosen element of a nonempty list (its head is the fallback
the JavaScript index expression can never actually hit). -/
def pickFrom (l : List SimpleMove) (d : SimpleMove) (r : Rand) : SimpleMove × Rand :=
  let (i, r') := r.pick l.length
  (l.getD i d, r')

/-- `selectSimulationMove`: with probability 0.7 a random capture if one
exists, else with probability 0.5 a random checking move if one exists, else
a uniformly random move.  The checking-move filter plays each move on a
clone and looks at the resulting classification. -/
def selectSimulationMove (s : GameState) (validMoves : List SimpleMove) (r : Rand) :
    SimpleMove × Rand :=
  let captures := validMoves.filter (fun m =>
    !(getSq s.board m.toSq.row m.toSq.col).isNone)
  let afterCaptures : Rand → SimpleMove × Rand := fun r1 =>
    let checks := validMoves.filter (fun m =>
      decide ((makeMove (cloneGameState s) m.fromSq.row m.fromSq.col
        m.toSq.row m.toSq.col).2.gameState = Status.check))
    let fallback : Rand → SimpleMove × Rand := fun r2 =>
      match validMoves with
      | [] => ({ fromSq := ⟨0, 0⟩, toSq := ⟨0, 0⟩, piece := ⟨.pawn, .white⟩ }, r2)
      | m :: rest => pickFrom (m :: rest) m r2
    match checks with
    | [] => fallback r1
    | k :: rest =>
      let (heads, r2) := r1.coin
      if heads then pickFrom (k :: rest) k r2 else fallback r2
  match captures with
  | [] => afterCaptures r
  | c :: rest =>
    let (heads, r1) := r.coin
    if heads then pickFrom (c :: rest) c r1 else afterCaptures r1

/-- The random-rollout loop of `simulate`: play heuristic moves until the
state leaves `playing`/`check`, a move fails, no move exists, or the depth
reaches `maxDepth` (the fuel counts the remaining depth). -/
def rollout : Nat → GameState → Rand → GameState × Rand
  | fuel, s, r =>
    if s.gameState = Status.playing ∨ s.gameState = Status.check then
      match fuel with
      | 0 => (s, r)
      | fuel' + 1 =>
        match getAllValidMoves s.toPos s.currentPlayer with
        | [] => (s, r)
        | m :: rest =>
          let (mv, r1) := selectSimulationMove s (m :: rest) r
          let (ok, s') := makeMove s mv.fromSq.row mv.fromSq.col mv.toSq.row mv.toSq.col
          if ok then rollout fuel' s' r1 else (s', r1)
    else (s, r)

/-- `simulate(node)`: clone the node's state, roll it out, evaluate the
final position for the node's side to move.  The neural-network branch is
dead: `neuralNetwork` is null until one is attached, and none ever is in
this program. -/
def simulate (node : MCTSNodeM) (r : Rand) : Rat × Rand :=
  let (final, r') := rollout maxDepth (cloneGameState node.state) r
  (evaluateTerminalPosition final node.state.currentPlayer, r')

/-- One full search iteration seen from a subtree root: the source's
selection loop (one level per recursive call), the expansion, the simulation
of the reached leaf and the backpropagation along the visited path — each
level above the leaf adds `1 - result` of the level below, exactly as
`backpropagate` flips the result for the opponent.  `selectBestChild` on a
node with no children is `children.reduce` with no seed: it throws, modeled
as `Except.error`.  Which child the float UCT comparison selects is supplied
by the oracle.  The fuel bounds the selection depth; the selection loop
descends to a strict child every step, so any fuel at least the tree height
is exact, and `search` passes one more than `maxSimulations`, an upper bound
on the height of a tree grown by one node per iteration. -/
def runIter : Nat → MCTSNodeM → Rand → Except Unit (MCTSNodeM × Rat × Rand)
  | 0, _, _ => .error ()
  | fuel + 1, node, r =>
    if node.isTerminal then
      let (res, r1) := simulate node r
      .ok (node.bump res, res, r1)
    else if node.isFullyExpanded then
      match node.children with
      | [] => .error ()
      | c :: rest =>
        let (i, r1) := r.pick (c :: rest).length
        match runIter fuel ((c :: rest).getD i c) r1 with
        | .error e => .error e
        | .ok (child', res, r2) =>
          .ok ((node.setChildren ((c :: rest).set i child')).bump (1 - res), 1 - res, r2)
    else
      let validMoves := getAllValidMoves node.state.toPos node.state.currentPlayer
      let unexplored := validMoves.filter (fun m =>
        !(node.children.any (fun ch =>
          match ch.move with
          | some cm => decide (cm.fromSq.row = m.fromSq.row ∧
              cm.fromSq.col = m.fromSq.col ∧ cm.toSq.row = m.toSq.row ∧
              cm.toSq.col = m.toSq.col)
          | none => false)))
      match unexplored with
      | [] =>
        let (res, r1) := simulate node r
        .ok (node.bump res, res, r1)
      | u :: rest =>
        let (i, r1) := r.pick (u :: rest).length
        let mv := (u :: rest).getD i u
        let cloned := cloneGameState node.state
        let (ok, s') := makeMove cloned mv.fromSq.row mv.fromSq.col
          mv.toSq.row mv.toSq.col
        if ok then
          let child := (MCTSNodeM.new s' (some mv))
          let (res, r2) := simulate child r1
          .ok ((node.setChildren (node.children ++ [child.bump res])).bump (1 - res),
            1 - res, r2)
        else
          let (res, r1') := simulate node r1
          .ok (node.bump res, res, r1')

/-- The `while (simulations < this.maxSimulations && ...)` loop of `search`:
run `n` iterations from the root (a thrown error aborts the whole call). -/
def searchLoop : Nat → MCTSNodeM → Rand → Except Unit (MCTSNodeM × Rand)
  | 0, node, r => .ok (node, r)
  | n + 1, node, r =>
    match runIter (maxSimulations + 1) node r with
    | .error e => .error e
    | .ok (node', _, r') => searchLoop n node' r'

/-- The final `rootNode.children.reduce((best, child) => child.visits >
best.visits ? child : best)`: seeded with the first child, so it throws on an
empty children array. -/
def selectMostVisited : List MCTSNodeM → Except Unit MCTSNodeM
  | [] => .error ()
  | c :: rest =>
    .ok (rest.foldl (fun best ch => if best.visits < ch.visits then ch else best) c)

/-- `ChessAI.search(gameState, timeLimit)`: clone the input into the root
node, run the iteration loop — how many iterations complete before the time
limit is oracle-dependent, so the count is a parameter capped by
`maxSimulations` — then answer the move of the most-visited root child.
The trailing `bestChild ? bestChild.move : null` guard is dead code: when
the root has no children the `reduce` has already thrown. -/
def search (s : GameState) (iters : Nat) (r : Rand) :
    Except Unit (Option SimpleMove) :=
  match searchLoop (min iters maxSimulations) (MCTSNodeM.new (cloneGameState s) none) r with
  | .error e => .error e
  | .ok (root', _) =>
    match selectMostVisited root'.children with
    | .error e => .error e
    | .ok best => .ok best.move

/-- `ChessAI.getBestMove(gameState)`: await `search`; a thrown error is
caught, logged as an engine failure, and answered with a uniformly random
legal move — or null when there is none. -/
def getBestMove (s : GameState) (iters : Nat) (r : Rand) : Option SimpleMove :=
  match search s iters r with
  | .ok m => m
  | .error _ =>
    match getAllValidMoves s.toPos s.currentPlayer with
    | [] => none
    | m :: rest => some (pickFrom (m :: rest) m r).1

/-- The final position of the fool's mate 1.f3 e5 2.g4 Qh4#: White to move,
checkmated, zero legal moves. -/
def c5Mate : GameState :=
  playMoves initialGameState [(6, 5, 5, 5), (1, 4, 3, 4), (6, 6, 4, 6), (0, 3, 4, 7)]

/-! ## Theorems -/

theorem Color.other_other (c : Color) : c.other.other = c := by
  cases c <;> rfl

/-! Board read/write algebra for `getSq`/`setSq`. -/

theorem list_getD_set_self {α : Type} (l : List α) (i : Nat) (a d : α)
    (h : i < l.length) : (l.set i a).getD i d = a := by
  simp [List.getD_eq_getElem?_getD, List.getElem?_set_self, h]

theorem list_getD_set_ne {α : Type} (l : List α) (i j : Nat) (a d : α)
    (h : i ≠ j) : (l.set i a).getD j d = l.getD j d := by
  simp [List.getD_eq_getElem?_getD, List.getElem?_set_ne h]

theorem list_set_getD_cancel {α : Type} (l : List α) (i : Nat) (d : α)
    (h : i < l.length) : l.set i (l.getD i d) = l := by
  apply List.ext_getElem?
  intro n
  by_cases hn : n = i
  · subst hn
    simp [List.getElem?_set_self, h, List.getD_eq_getElem?_getD, List.getElem?_eq_getElem h]
  · simp [List.getElem?_set_ne (Ne.symm hn)]

theorem boardWF_length {b : Board} (h : boardWF b = true) : b.length = 8 := by
  simp only [boardWF, Bool.and_eq_true, beq_iff_eq] at h
  exact h.1

theorem boardWF_row {b : Board} (h : boardWF b = true) (i : Nat) :
    (b.getD i []).length = 8 ∨ 8 ≤ i := by
  simp only [boardWF, Bool.and_eq_true, beq_iff_eq, List.all_eq_true] at h
  by_cases hi : i < b.length
  · left
    have hmem : b.getD i [] ∈ b := by
      rw [List.getD_eq_getElem?_getD, List.getElem?_eq_getElem hi]
      exact List.getElem_mem hi
    simpa using h.2 _ hmem
  · right
    omega

theorem boardWF_setSq (b : Board) (r c : Int) (v : Option Piece)
    (h : boardWF b = true) : boardWF (setSq b r c v) = true := by
  unfold setSq
  split
  · by_cases hlt : r.toNat < b.length
    · simp only [boardWF, Bool.and_eq_true, beq_iff_eq, List.length_set,
        List.all_eq_true] at h ⊢
      refine ⟨h.1, ?_⟩
      intro row hrow
      rcases List.mem_or_eq_of_mem_set hrow with hmem | heq
      · exact h.2 row hmem
      · subst heq
        simp only [List.length_set]
        have hmem : b.getD r.toNat [] ∈ b := by
          rw [List.getD_eq_getElem?_getD, List.getElem?_eq_getElem hlt]
          exact List.getElem_mem hlt
        exact h.2 _ hmem
    · rw [List.set_eq_of_length_le (by omega)]
      exact h
  · exact h

theorem getSq_setSq_self (b : Board) (r c : Int) (v : Option Piece)
    (hwf : boardWF b = true)
    (hr0 : 0 ≤ r) (hr8 : r < 8) (hc0 : 0 ≤ c) (hc8 : c < 8) :
    getSq (setSq b r c v) r c = v := by
  have hb := boardWF_length hwf
  have hrow := boardWF_row hwf r.toNat
  unfold getSq setSq
  rw [if_pos ⟨hr0, hr8, hc0, hc8⟩, if_pos ⟨hr0, hr8, hc0, hc8⟩]
  rw [list_getD_set_self _ _ _ _ (by omega)]
  rw [list_getD_set_self _ _ _ _ (by rcases hrow with h | h; omega; omega)]

theorem getSq_setSq_ne (b : Board) (r c r2 c2 : Int) (v : Option Piece)
    (h : ¬(r = r2 ∧ c = c2)) :
    getSq (setSq b r c v) r2 c2 = getSq b r2 c2 := by
  unfold getSq setSq
  by_cases h2 : 0 ≤ r2 ∧ r2 < 8 ∧ 0 ≤ c2 ∧ c2 < 8
  · rw [if_pos h2, if_pos h2]
    by_cases h1 : 0 ≤ r ∧ r < 8 ∧ 0 ≤ c ∧ c < 8
    · rw [if_pos h1]
      by_cases hrr : r = r2
      · subst hrr
        have hcc : c.toNat ≠ c2.toNat := by
          have : ¬ c = c2 := fun hc => h ⟨rfl, hc⟩
          omega
        by_cases hlen : r.toNat < b.length
        · rw [list_getD_set_self _ _ _ _ hlen, list_getD_set_ne _ _ _ _ _ hcc]
        · rw [List.set_eq_of_length_le (by omega)]
      · have hrn : r.toNat ≠ r2.toNat := by omega
        rw [list_getD_set_ne _ _ _ _ _ hrn]
    · rw [if_neg h1]
  · rw [if_neg h2, if_neg h2]

theorem setSq_setSq_same (b : Board) (r c : Int) (v1 v2 : Option Piece) :
    setSq (setSq b r c v1) r c v2 = setSq b r c v2 := by
  unfold setSq
  split
  · by_cases hlen : r.toNat < b.length
    · rw [list_getD_set_self _ _ _ _ hlen, List.set_set, List.set_set]
    · have hnoop : b.set r.toNat ((b.getD r.toNat []).set c.toNat v1) = b :=
        List.set_eq_of_length_le (by omega)
      rw [hnoop]
  · rfl

theorem setSq_comm (b : Board) (r c r2 c2 : Int) (v1 v2 : Option Piece)
    (h : ¬(r = r2 ∧ c = c2)) :
    setSq (setSq b r c v1) r2 c2 v2 = setSq (setSq b r2 c2 v2) r c v1 := by
  by_cases h1 : 0 ≤ r ∧ r < 8 ∧ 0 ≤ c ∧ c < 8
  · by_cases h2 : 0 ≤ r2 ∧ r2 < 8 ∧ 0 ≤ c2 ∧ c2 < 8
    · simp only [setSq, if_pos h1, if_pos h2]
      by_cases hrr : r = r2
      · subst hrr
        have hcc : c.toNat ≠ c2.toNat := by
          have : ¬ c = c2 := fun hc => h ⟨rfl, hc⟩
          omega
        by_cases hlen : r.toNat < b.length
        · rw [list_getD_set_self _ _ _ _ hlen, list_getD_set_self _ _ _ _ hlen]
          simp only [List.set_set]
          rw [List.set_comm _ _ _ hcc]
        · have hnoop1 : b.set r.toNat ((b.getD r.toNat []).set c.toNat v1) = b :=
            List.set_eq_of_length_le (by omega)
          have hnoop2 : b.set r.toNat ((b.getD r.toNat []).set c2.toNat v2) = b :=
            List.set_eq_of_length_le (by omega)
          rw [hnoop1, hnoop2, hnoop1]
      · have hrn : r.toNat ≠ r2.toNat := by omega
        rw [list_getD_set_ne _ _ _ _ _ (Ne.symm hrn), list_getD_set_ne _ _ _ _ _ hrn,
          List.set_comm _ _ _ hrn]
    · simp only [setSq, if_neg h2]
  · simp only [setSq, if_neg h1]

theorem setSq_getSq_cancel (b : Board) (r c : Int)
    (hwf : boardWF b = true)
    (hr0 : 0 ≤ r) (hr8 : r < 8) (hc0 : 0 ≤ c) (hc8 : c < 8) :
    setSq b r c (getSq b r c) = b := by
  have hb := boardWF_length hwf
  have hrow := boardWF_row hwf r.toNat
  unfold getSq setSq
  rw [if_pos ⟨hr0, hr8, hc0, hc8⟩, if_pos ⟨hr0, hr8, hc0, hc8⟩]
  rw [list_set_getD_cancel _ _ _ (by rcases hrow with h | h; omega; omega)]
  rw [list_set_getD_cancel _ _ _ (by omega)]

/-- `toList` of a string concatenation. -/
theorem string_toList_append (a b : String) :
    (a ++ b).toList = a.toList ++ b.toList :=
  String.data_append a b

/-- Decoding distributes over character-list concatenation. -/
theorem fenRowDecodeList_append (l1 l2 : List Char) :
    fenRowDecodeList (l1 ++ l2) = fenRowDecodeList l1 ++ fenRowDecodeList l2 := by
  induction l1 with
  | nil => rfl
  | cons c rest ih => simp [fenRowDecodeList, ih]

/-- A single piece letter decodes back to that piece. -/
theorem fenRowDecodeList_pieceFenStr (piece : Piece) :
    fenRowDecodeList (pieceFenStr piece).toList = [some piece] := by
  rcases piece with ⟨t, c⟩
  cases t <;> cases c <;> decide

/-- A digit `1..8` decodes to the corresponding run of empty squares. -/
theorem fenRowDecodeList_digit (n : Nat) (h1 : 1 ≤ n) (h8 : n ≤ 8) :
    fenRowDecodeList (toString n).toList = List.replicate n none := by
  interval_cases n <;> decide

/-- The row encoder of `toFEN` is inverted by the spec-side decoder: digit
runs for empty squares, case-and-letter encoding for pieces.  The pending
`emptyCount` is the number of empty squares already absorbed. -/
theorem fenRowDecodeList_encode (squares : List (Option Piece)) :
    ∀ k : Nat, squares.length + k ≤ 8 →
    fenRowDecodeList (fenRowEncode squares k).toList =
      List.replicate k none ++ squares := by
  induction squares with
  | nil =>
    intro k hk
    match k with
    | 0 => decide
    | k + 1 =>
      rw [fenRowEncode]
      rw [fenRowDecodeList_digit (k + 1) (Nat.succ_le_succ (Nat.zero_le k)) (by omega)]
      simp
  | cons sq rest ih =>
    intro k hk
    match sq with
    | none =>
      rw [fenRowEncode]
      rw [ih (k + 1) (by simp at hk ⊢; omega)]
      simp [List.replicate_succ']
    | some piece =>
      match k with
      | 0 =>
        rw [fenRowEncode]
        rw [string_toList_append, fenRowDecodeList_append]
        rw [fenRowDecodeList_pieceFenStr, ih 0 (by simp at hk ⊢; omega)]
        simp
      | k + 1 =>
        rw [fenRowEncode]
        rw [string_toList_append, string_toList_append,
          fenRowDecodeList_append, fenRowDecodeList_append]
        rw [fenRowDecodeList_digit (k + 1) (Nat.succ_le_succ (Nat.zero_le k)) (by omega)]
        rw [fenRowDecodeList_pieceFenStr, ih 0 (by simp at hk ⊢; omega)]
        simp


/-- **C1.** For every game state and every quadruple of coordinates, if the
requested move is rejected by the legality check, `makeMove` returns
`false` and the entire state — board, current player, castling rights,
en-passant target, halfmove counter, captured-piece lists, move log and
repetition table — is exactly the state before the call. -/
theorem makeMove_rejects_illegal (s : GameState) (fr fc tr tc : Int)
    (promotionPiece : PieceType)
    (h : isValidMove s.toPos fr fc tr tc = false) :
    makeMove s fr fc tr tc promotionPiece = (false, s) := by
  simp [makeMove, h]

/-- Witness for C1: moving the black rook on a8 while White is to move is
rejected and the constructor state is returned unchanged. -/
theorem makeMove_rejects_illegal_witness :
    isValidMove initialGameState.toPos 0 0 5 5 = false ∧
    makeMove initialGameState 0 0 5 5 PieceType.queen = (false, initialGameState) :=
  ⟨by decide, makeMove_rejects_illegal initialGameState 0 0 5 5 PieceType.queen (by decide)⟩

/-- **C10.** `isValidMove` is total over all integer coordinates: whenever
any of the four coordinates lies outside `0..7` it returns `false` (the
bounds check precedes every board access), and consequently the UI's
per-square move query returns the empty list for an out-of-range origin
square rather than faulting. -/
theorem isValidMove_total_bounds :
    (∀ (p : Position) (fr fc tr tc : Int),
      fr < 0 ∨ fr > 7 ∨ fc < 0 ∨ fc > 7 ∨ tr < 0 ∨ tr > 7 ∨ tc < 0 ∨ tc > 7 →
      isValidMove p fr fc tr tc = false) ∧
    (∀ (p : Position) (row col : Int),
      row < 0 ∨ row > 7 ∨ col < 0 ∨ col > 7 →
      getValidMovesForSquare p row col = []) := by
  have h1 : ∀ (p : Position) (fr fc tr tc : Int),
      fr < 0 ∨ fr > 7 ∨ fc < 0 ∨ fc > 7 ∨ tr < 0 ∨ tr > 7 ∨ tc < 0 ∨ tc > 7 →
      isValidMove p fr fc tr tc = false := by
    intro p fr fc tr tc h
    unfold isValidMove
    rw [if_pos h]
  refine ⟨h1, ?_⟩
  intro p row col h
  have hall : ∀ tr tc : Int, isValidMove p row col tr tc = false := by
    intro tr tc
    apply h1
    tauto
  simp [getValidMovesForSquare, hall]

/-- The placement field is the eight encoded ranks (row 0 = rank 8 first)
joined by `'/'`. -/
theorem fenPlacement_intercalate (b : Board) :
    fenPlacement b = String.intercalate "/"
      ((List.range 8).map fun r => fenRowEncode (squaresOfRow b r) 0) := by
  simp [fenPlacement, String.intercalate, String.intercalate.go, List.range_succ,
    String.ext_iff, String.data_append]

/-- The castling field is `"-"` or a nonempty subsequence of `KQkq`. -/
theorem castlingField_subset (cr : CastlingRights) :
    castlingField cr = "-" ∨
      ((castlingField cr).toList.Sublist ['K', 'Q', 'k', 'q'] ∧ castlingField cr ≠ "") := by
  rcases cr with ⟨⟨wk, wq⟩, ⟨bk, bq⟩⟩
  cases wk <;> cases wq <;> cases bk <;> cases bq <;> simp [castlingField]

/-- **C8 (amended).** `toFEN` emits six space-separated fields: the piece
placement (ranks 8→1 joined by `'/'`, digit runs for empty squares, and
letter case encoding color — witnessed by the spec-side decoder inverting
each encoded rank), the active color `w`/`b`, the castling availability as
a subset of `KQkq` or `-`, the en-passant target *as the internal row–col
digit pair* (not an algebraic square name) or `-`, the halfmove clock, and
`⌈plies/2⌉` as the final field — which is 0, not 1, at the start of the
game. -/
theorem toFEN_fields (s : GameState) :
    toFEN s =
      fenPlacement s.board ++ " " ++
      (if s.currentPlayer = Color.white then "w" else "b") ++ " " ++
      castlingField s.castlingRights ++ " " ++
      epField s.enPassantTarget ++ " " ++
      toString s.fiftyMoveRule ++ " " ++
      toString (fullmoveField s.moveHistory.length) ∧
    fenPlacement s.board = String.intercalate "/"
      ((List.range 8).map fun r => fenRowEncode (squaresOfRow s.board r) 0) ∧
    (∀ r : Nat, r < 8 →
      fenRowDecodeList (fenRowEncode (squaresOfRow s.board r) 0).toList =
        squaresOfRow s.board r) ∧
    (castlingField s.castlingRights = "-" ∨
      ((castlingField s.castlingRights).toList.Sublist ['K', 'Q', 'k', 'q'] ∧
        castlingField s.castlingRights ≠ "")) ∧
    (s.enPassantTarget = none → epField s.enPassantTarget = "-") ∧
    (∀ t, s.enPassantTarget = some t →
      epField s.enPassantTarget = toString t.row ++ toString t.col) ∧
    fullmoveField s.moveHistory.length = (s.moveHistory.length + 1) / 2 := by
  refine ⟨rfl, fenPlacement_intercalate s.board, ?_, castlingField_subset _, ?_, ?_, rfl⟩
  · intro r _
    have hlen : (squaresOfRow s.board r).length = 8 := by
      simp [squaresOfRow]
    have := fenRowDecodeList_encode (squaresOfRow s.board r) 0 (by omega)
    simpa using this
  · intro h; rw [h]; rfl
  · intro t h; rw [h]; rfl

/-! Facts extracted from a successful legality check. -/

theorem isValidMove_bounds {p : Position} {fr fc tr tc : Int}
    (h : isValidMove p fr fc tr tc = true) :
    0 ≤ fr ∧ fr ≤ 7 ∧ 0 ≤ fc ∧ fc ≤ 7 ∧ 0 ≤ tr ∧ tr ≤ 7 ∧ 0 ≤ tc ∧ tc ≤ 7 := by
  by_cases hb : fr < 0 ∨ fr > 7 ∨ fc < 0 ∨ fc > 7 ∨ tr < 0 ∨ tr > 7 ∨ tc < 0 ∨ tc > 7
  · rw [isValidMove, if_pos hb] at h
    exact absurd h (by simp)
  · push_neg at hb
    omega

theorem isValidMove_piece {p : Position} {fr fc tr tc : Int}
    (h : isValidMove p fr fc tr tc = true) :
    ∃ piece, getSq p.board fr fc = some piece ∧ piece.color = p.currentPlayer ∧
      isPieceMovementValid p piece fr fc tr tc = true ∧
      (∀ t, getSq p.board tr tc = some t → ¬ t.color = piece.color) := by
  by_cases hb : fr < 0 ∨ fr > 7 ∨ fc < 0 ∨ fc > 7 ∨ tr < 0 ∨ tr > 7 ∨ tc < 0 ∨ tc > 7
  · rw [isValidMove, if_pos hb] at h
    exact absurd h (by simp)
  · rw [isValidMove, if_neg hb] at h
    cases hp : getSq p.board fr fc with
    | none => simp only [hp] at h; exact absurd h (by simp)
    | some piece =>
      simp only [hp] at h
      by_cases hc : piece.color = p.currentPlayer
      · rw [if_neg (fun hne => hne hc)] at h
        refine ⟨piece, rfl, hc, ?_, ?_⟩
        · by_cases hmv : isPieceMovementValid p piece fr fc tr tc = true
          · exact hmv
          · exfalso
            have hmv' : isPieceMovementValid p piece fr fc tr tc = false := by
              revert hmv
              cases isPieceMovementValid p piece fr fc tr tc <;> simp
            simp [hmv'] at h
        · intro t hto htc
          simp [hto, htc] at h
      · rw [if_pos hc] at h
        exact absurd h (by simp)

theorem isValidMove_src_ne_dst {p : Position} {fr fc tr tc : Int}
    (h : isValidMove p fr fc tr tc = true) : ¬(fr = tr ∧ fc = tc) := by
  rintro ⟨h1, h2⟩
  subst h1; subst h2
  obtain ⟨piece, hp, _, _, hne⟩ := isValidMove_piece h
  exact hne piece hp rfl

/-- A successful `makeMove` is the commit branch. -/
theorem makeMove_success (s : GameState) (fr fc tr tc : Int) (promo : PieceType)
    (piece : Piece)
    (hv : isValidMove s.toPos fr fc tr tc = true)
    (hp : getSq s.board fr fc = some piece) :
    makeMove s fr fc tr tc promo = (true, makeMoveCommit s fr fc tr tc promo piece) := by
  simp [makeMove, hv, hp]

theorem makeMoveCommit_toPos (s : GameState) (fr fc tr tc : Int) (promo : PieceType)
    (piece : Piece) :
    (makeMoveCommit s fr fc tr tc promo piece).toPos =
      (makeMovePre s fr fc tr tc promo piece).toPos := rfl

theorem makeMoveCommit_currentPlayer (s : GameState) (fr fc tr tc : Int)
    (promo : PieceType) (piece : Piece) :
    (makeMoveCommit s fr fc tr tc promo piece).currentPlayer =
      (makeMovePre s fr fc tr tc promo piece).currentPlayer := rfl

theorem makeMoveCommit_board (s : GameState) (fr fc tr tc : Int)
    (promo : PieceType) (piece : Piece) :
    (makeMoveCommit s fr fc tr tc promo piece).board =
      (makeMovePre s fr fc tr tc promo piece).board := rfl

theorem makeMoveCommit_fiftyMoveRule (s : GameState) (fr fc tr tc : Int)
    (promo : PieceType) (piece : Piece) :
    (makeMoveCommit s fr fc tr tc promo piece).fiftyMoveRule =
      (makeMovePre s fr fc tr tc promo piece).fiftyMoveRule := rfl

theorem makeMoveCommit_gameState (s : GameState) (fr fc tr tc : Int)
    (promo : PieceType) (piece : Piece) :
    (makeMoveCommit s fr fc tr tc promo piece).gameState =
      computeGameState (makeMovePre s fr fc tr tc promo piece) := rfl

theorem makeMoveCommit_threefoldRepetition (s : GameState) (fr fc tr tc : Int)
    (promo : PieceType) (piece : Piece) :
    (makeMoveCommit s fr fc tr tc promo piece).threefoldRepetition =
      bumpCount s.threefoldRepetition
        ((makeMovePre s fr fc tr tc promo piece).toPos |> positionKey) := rfl

theorem makeMovePre_threefoldRepetition (s : GameState) (fr fc tr tc : Int)
    (promo : PieceType) (piece : Piece) :
    (makeMovePre s fr fc tr tc promo piece).threefoldRepetition =
      s.threefoldRepetition := rfl

theorem makeMovePre_castlingRights (s : GameState) (fr fc tr tc : Int)
    (promo : PieceType) (piece : Piece) :
    (makeMovePre s fr fc tr tc promo piece).castlingRights =
      updateCastlingRights
        (if piece.type = PieceType.pawn ∧
            ((piece.color = Color.white ∧ tr = 0) ∨ (piece.color = Color.black ∧ tr = 7))
         then { piece with type := promo } else piece)
        fr fc s.castlingRights := rfl

theorem makeMoveCommit_castlingRights (s : GameState) (fr fc tr tc : Int)
    (promo : PieceType) (piece : Piece) :
    (makeMoveCommit s fr fc tr tc promo piece).castlingRights =
      (makeMovePre s fr fc tr tc promo piece).castlingRights := rfl

theorem rightsLE_refl (a : CastlingRights) : rightsLE a a := by
  simp [rightsLE]

theorem rightsLE_trans {a b c : CastlingRights} (h1 : rightsLE a b) (h2 : rightsLE b c) :
    rightsLE a c := by
  obtain ⟨p1, p2, p3, p4⟩ := h1
  obtain ⟨q1, q2, q3, q4⟩ := h2
  exact ⟨fun h => q1 (p1 h), fun h => q2 (p2 h), fun h => q3 (p3 h), fun h => q4 (p4 h)⟩

/-- `updateCastlingRights` only ever clears rights. -/
theorem updateCastlingRights_le (piece : Piece) (fr fc : Int) (cr : CastlingRights) :
    rightsLE (updateCastlingRights piece fr fc cr) cr := by
  rcases piece with ⟨t, c⟩
  cases t <;> cases c <;>
    simp only [updateCastlingRights, rightsLE] <;>
    split_ifs <;> simp

/-- One `makeMove` call never sets a castling right. -/
theorem makeMove_rightsLE (s : GameState) (fr fc tr tc : Int) (promo : PieceType) :
    rightsLE (makeMove s fr fc tr tc promo).2.castlingRights s.castlingRights := by
  cases hv : isValidMove s.toPos fr fc tr tc with
  | false =>
    rw [makeMove_rejects_illegal s fr fc tr tc promo hv]
    exact rightsLE_refl _
  | true =>
    cases hp : getSq s.board fr fc with
    | none =>
      simp only [makeMove, hv, hp, if_true]
      exact rightsLE_refl _
    | some piece =>
      rw [makeMove_success s fr fc tr tc promo piece hv hp]
      rw [show ((true, makeMoveCommit s fr fc tr tc promo piece).2 : GameState) =
        makeMoveCommit s fr fc tr tc promo piece from rfl]
      rw [makeMoveCommit_castlingRights, makeMovePre_castlingRights]
      exact updateCastlingRights_le _ fr fc s.castlingRights

/-- `undoMove` never touches the castling rights at all. -/
theorem undoMove_castlingRights (s : GameState) :
    (undoMove s).2.castlingRights = s.castlingRights := by
  unfold undoMove
  cases h : s.moveHistory.getLast? <;> simp

/-- **C9.** Each castling-rights boolean is monotonically non-increasing
over every sequence of `makeMove` and `undoMove` operations — once false,
never true again (`undoMove` does not restore rights, and `makeMove` only
ever clears them).  A successful `makeMove` of a king clears both of that
color's rights; a successful `makeMove` of a rook from its home square
clears the corresponding side's right. -/
theorem castlingRights_monotone :
    (∀ (s : GameState) (ops : List ((Int × Int × Int × Int × PieceType) ⊕ Unit)),
      rightsLE (applyOps s ops).castlingRights s.castlingRights) ∧
    (∀ (s : GameState) (fr fc tr tc : Int) (promo : PieceType) (piece : Piece),
      isValidMove s.toPos fr fc tr tc = true →
      getSq s.board fr fc = some piece →
      piece.type = PieceType.king →
      (makeMove s fr fc tr tc promo).2.castlingRights.get piece.color =
        ⟨false, false⟩) ∧
    (∀ (s : GameState) (fr fc tr tc : Int) (promo : PieceType) (piece : Piece),
      isValidMove s.toPos fr fc tr tc = true →
      getSq s.board fr fc = some piece →
      piece.type = PieceType.rook →
      ((piece.color = Color.white ∧ fr = 7 ∧ fc = 0 →
          (makeMove s fr fc tr tc promo).2.castlingRights.white.queenside = false) ∧
       (piece.color = Color.white ∧ fr = 7 ∧ fc = 7 →
          (makeMove s fr fc tr tc promo).2.castlingRights.white.kingside = false) ∧
       (piece.color = Color.black ∧ fr = 0 ∧ fc = 0 →
          (makeMove s fr fc tr tc promo).2.castlingRights.black.queenside = false) ∧
       (piece.color = Color.black ∧ fr = 0 ∧ fc = 7 →
          (makeMove s fr fc tr tc promo).2.castlingRights.black.kingside = false))) := by
  refine ⟨?_, ?_, ?_⟩
  · intro s ops
    induction ops generalizing s with
    | nil => exact rightsLE_refl _
    | cons op rest ih =>
      refine rightsLE_trans (ih (applyOp s op)) ?_
      match op with
      | .inl (fr, fc, tr, tc, promo) => exact makeMove_rightsLE s fr fc tr tc promo
      | .inr () =>
        rw [show applyOp s (Sum.inr ()) = (undoMove s).2 from rfl, undoMove_castlingRights]
        exact rightsLE_refl _
  · intro s fr fc tr tc promo piece hv hp htyp
    rw [makeMove_success s fr fc tr tc promo piece hv hp]
    rw [show ((true, makeMoveCommit s fr fc tr tc promo piece).2 : GameState) =
      makeMoveCommit s fr fc tr tc promo piece from rfl]
    rw [makeMoveCommit_castlingRights, makeMovePre_castlingRights]
    rcases piece with ⟨t, c⟩
    simp only at htyp
    subst htyp
    cases c <;> simp [updateCastlingRights, CastlingRights.get]
  · intro s fr fc tr tc promo piece hv hp htyp
    rw [makeMove_success s fr fc tr tc promo piece hv hp]
    rw [show ((true, makeMoveCommit s fr fc tr tc promo piece).2 : GameState) =
      makeMoveCommit s fr fc tr tc promo piece from rfl]
    rw [makeMoveCommit_castlingRights, makeMovePre_castlingRights]
    rcases piece with ⟨t, c⟩
    simp only at htyp
    subst htyp
    refine ⟨?_, ?_, ?_, ?_⟩ <;>
      rintro ⟨hc, h1, h2⟩ <;> simp only at hc <;> subst hc <;> subst h1 <;> subst h2 <;>
      simp [updateCastlingRights]

/-- **C3 (amended).** The game-end classifier draws by the halfmove rule
at a counter of 50 *plies* (not 100), and the `check` classification takes
priority over every draw rule (not the other way around): with legal moves
available, (1) no check and counter ≥ 50 classifies as `draw`; (2) check
classifies as `check` whatever the counter; (3) no check, counter < 50 and
no repetition or material draw classifies as `playing`. -/
theorem halfmove_draw_at_50 :
    (∀ s : GameState, hasValidMoves s.toPos s.currentPlayer = true →
        isInCheck s.toPos s.currentPlayer = false →
        50 ≤ s.fiftyMoveRule → computeGameState s = Status.draw) ∧
    (∀ s : GameState, hasValidMoves s.toPos s.currentPlayer = true →
        isInCheck s.toPos s.currentPlayer = true →
        computeGameState s = Status.check) ∧
    (∀ s : GameState, hasValidMoves s.toPos s.currentPlayer = true →
        isInCheck s.toPos s.currentPlayer = false → s.fiftyMoveRule < 50 →
        isThreefoldRepetitionB s = false → isInsufficientMaterial s.board = false →
        computeGameState s = Status.playing) := by
  refine ⟨?_, ?_, ?_⟩
  · intro s h1 h2 h3
    simp [computeGameState, h1, h2, h3]
  · intro s h1 h2
    simp [computeGameState, h1, h2]
  · intro s h1 h2 h3 h4 h5
    simp [computeGameState, h1, h2, h4, h5, Nat.not_le.mpr h3]

/-- **C4 (amended).** After a committed move, the repetition table is
bumped only after classification, so the classifier sees the counts *before*
this move: with legal moves available, no check, counter < 50 and no
material draw, the recomputed status is `draw` exactly when the canonical
signature of the position just reached had already occurred 3 or more times
before this move — i.e. when this move creates at least the fourth
occurrence, not the third; and the new table records this occurrence on top
of the prior count. -/
theorem threefold_requires_three_prior (s : GameState) (fr fc tr tc : Int)
    (promo : PieceType) (piece : Piece)
    (hv : isValidMove s.toPos fr fc tr tc = true)
    (hp : getSq s.board fr fc = some piece)
    (r : GameState) (hr : r = (makeMove s fr fc tr tc promo).2) :
    r.threefoldRepetition = bumpCount s.threefoldRepetition (positionKey r.toPos) ∧
    (hasValidMoves r.toPos r.currentPlayer = true →
     isInCheck r.toPos r.currentPlayer = false →
     r.fiftyMoveRule < 50 →
     isInsufficientMaterial r.board = false →
     (r.gameState = Status.draw ↔
        3 ≤ lookupCount s.threefoldRepetition (positionKey r.toPos))) := by
  subst hr
  rw [makeMove_success s fr fc tr tc promo piece hv hp]
  simp only [makeMoveCommit_toPos, makeMoveCommit_currentPlayer, makeMoveCommit_board,
    makeMoveCommit_fiftyMoveRule, makeMoveCommit_gameState, makeMoveCommit_threefoldRepetition]
  refine ⟨by trivial, ?_⟩
  intro h1 h2 h3 h4
  by_cases hrep :
      3 ≤ lookupCount s.threefoldRepetition
        (positionKey (makeMovePre s fr fc tr tc promo piece).toPos)
  · simp [computeGameState, isThreefoldRepetitionB, makeMovePre_threefoldRepetition,
      h1, h2, h4, Nat.not_le.mpr h3, hrep]
  · simp [computeGameState, isThreefoldRepetitionB, makeMovePre_threefoldRepetition,
      h1, h2, h4, Nat.not_le.mpr h3, hrep]

/-- Witness for C8 (amended): the decode round-trip instantiated on rank 8
of the initial board. -/
theorem toFEN_fields_witness :
    (0 : Nat) < 8 ∧
    fenRowDecodeList (fenRowEncode (squaresOfRow initialGameState.board 0) 0).toList =
      squaresOfRow initialGameState.board 0 :=
  ⟨by decide, (toFEN_fields initialGameState).2.2.1 0 (by decide)⟩

/-- Witness for C10: origin row −1 yields `false` and an empty move list on
the initial position. -/
theorem isValidMove_total_bounds_witness :
    isValidMove initialGameState.toPos (-1) 0 0 0 = false ∧
    getValidMovesForSquare initialGameState.toPos (-1) 0 = [] :=
  ⟨isValidMove_total_bounds.1 initialGameState.toPos (-1) 0 0 0 (by decide),
   isValidMove_total_bounds.2 initialGameState.toPos (-1) 0 (by decide)⟩

/-- A king move of two columns passed by `isPieceMovementValid` is a castle:
same row, the matching right is still held, and the squares between king and
rook are empty. -/
theorem castle_shape {p : Position} {piece : Piece} {fr fc tr tc : Int}
    (hmv : isPieceMovementValid p piece fr fc tr tc = true)
    (hk : piece.type = PieceType.king)
    (h2 : (tc - fc).natAbs = 2) :
    tr = fr ∧
    (p.castlingRights.get piece.color).get
      (if tc > fc then BoardSide.kingside else BoardSide.queenside) = true ∧
    ∀ col ∈ betweenCols (if tc > fc then BoardSide.kingside else BoardSide.queenside),
      getSq p.board (if piece.color = Color.white then 7 else 0) col = none := by
  rw [isPieceMovementValid, isPieceMovementValidGen, hk] at hmv
  rw [isKingMoveValidGen] at hmv
  rw [if_neg (by omega)] at hmv
  by_cases hrow : (tr - fr).natAbs = 0
  · rw [if_pos ⟨hrow, h2⟩] at hmv
    rw [canCastleGen] at hmv
    refine ⟨by omega, ?_, ?_⟩
    · by_cases hr : (p.castlingRights.get piece.color).get
        (if tc > fc then BoardSide.kingside else BoardSide.queenside) = true
      · exact hr
      · exfalso
        rw [if_pos (by simp [Bool.not_eq_true] at hr ⊢; exact hr)] at hmv
        exact absurd hmv (by simp)
    · intro col hcol
      by_cases hr : (p.castlingRights.get piece.color).get
          (if tc > fc then BoardSide.kingside else BoardSide.queenside) = true
      · rw [if_neg (by simp [hr])] at hmv
        by_cases hchk : isInCheckGen (fun c2 r2 w2 => wouldBeInCheckF checkFuel p c2 r2 w2)
            p.board piece.color = true
        · rw [if_pos hchk] at hmv
          exact absurd hmv (by simp)
        · rw [if_neg hchk] at hmv
          by_cases hbet : (betweenCols (if tc > fc then BoardSide.kingside
              else BoardSide.queenside)).all
              (fun col => (getSq p.board (if piece.color = Color.white then 7 else 0)
                col).isNone) = true
          · rw [List.all_eq_true] at hbet
            have := hbet col hcol
            simpa [Option.isNone_iff_eq_none] using this
          · exfalso
            rw [if_pos (by simp [Bool.not_eq_true] at hbet ⊢; exact hbet)] at hmv
            exact absurd hmv (by simp)
      · exfalso
        rw [if_pos (by simp [Bool.not_eq_true] at hr ⊢; exact hr)] at hmv
        exact absurd hmv (by simp)
  · rw [if_neg (by intro hh; exact hrow hh.1)] at hmv
    exact absurd hmv (by simp)

/-- On a castling-well-formed state, a king whose side still holds a right
stands on its home square. -/
theorem castleWF_king_home {s : GameState} {c : Color} {side : BoardSide} {piece : Piece}
    {fr fc : Int}
    (hcw : castleWF s = true)
    (hr : (s.castlingRights.get c).get side = true)
    (hp : getSq s.board fr fc = some piece)
    (hk : piece.type = PieceType.king) (hc : piece.color = c)
    (hfr : 0 ≤ fr ∧ fr ≤ 7) (hfc : 0 ≤ fc ∧ fc ≤ 7) :
    fr = (if c = Color.white then 7 else 0) ∧ fc = 4 := by
  have hkh : kingsHome s.board c = true := by
    simp only [castleWF, Bool.and_eq_true, Bool.or_eq_true, Bool.not_eq_true'] at hcw
    cases c with
    | white =>
      rcases hcw.1 with hno | hyes
      · exfalso
        simp only [Bool.or_eq_false_iff] at hno
        cases side with
        | kingside =>
          simp only [CastlingRights.get, SideRights.get] at hr
          rw [hno.1] at hr
          exact absurd hr (by simp)
        | queenside =>
          simp only [CastlingRights.get, SideRights.get] at hr
          rw [hno.2] at hr
          exact absurd hr (by simp)
      · exact hyes
    | black =>
      rcases hcw.2 with hno | hyes
      · exfalso
        simp only [Bool.or_eq_false_iff] at hno
        cases side with
        | kingside =>
          simp only [CastlingRights.get, SideRights.get] at hr
          rw [hno.1] at hr
          exact absurd hr (by simp)
        | queenside =>
          simp only [CastlingRights.get, SideRights.get] at hr
          rw [hno.2] at hr
          exact absurd hr (by simp)
      · exact hyes
  simp only [kingsHome, List.all_eq_true] at hkh
  have hfr8 : fr.toNat < 8 := by omega
  have hfc8 : fc.toNat < 8 := by omega
  have h1 := hkh fr.toNat (List.mem_range.mpr hfr8) fc.toNat (List.mem_range.mpr hfc8)
  rw [show Int.ofNat fr.toNat = fr from Int.toNat_of_nonneg hfr.1,
    show Int.ofNat fc.toNat = fc from Int.toNat_of_nonneg hfc.1] at h1
  simp only [hp] at h1
  rw [if_pos ⟨hk, hc⟩] at h1
  exact of_decide_eq_true h1



/-- A pawn move onto the en-passant target square with an empty destination
is a diagonal single step, and the captured pawn of the other color stands
behind the target square. -/
theorem pawn_ep_shape {s : GameState} {piece : Piece} {fr fc tr tc : Int}
    (hmv : isPieceMovementValid s.toPos piece fr fc tr tc = true)
    (hpw : piece.type = PieceType.pawn)
    (hcol : piece.color = s.currentPlayer)
    (hfrom : getSq s.board fr fc = some piece)
    (hept : s.enPassantTarget = some ⟨tr, tc⟩)
    ( _hto : getSq s.board tr tc = none)
    (hep : epOk s = true) :
    (tc - fc).natAbs = 1 ∧
    (if piece.color = Color.white then tr + 1 else tr - 1) = fr ∧
    ∃ pw, getSq s.board fr tc = some pw ∧ ¬ pw.color = piece.color := by
  rw [isPieceMovementValid, isPieceMovementValidGen, hpw] at hmv
  simp only [isPawnMoveValid] at hmv
  simp only [epOk, hept, ← hcol] at hep
  cases hc : piece.color with
  | white =>
    rw [hc] at hmv hep
    have hdir : (if Color.white = Color.white then (-1 : Int) else 1) = -1 := if_pos rfl
    have hsr : (if Color.white = Color.white then (6 : Int) else 1) = 6 := if_pos rfl
    have hd : (if Color.white = Color.white then (1 : Int) else -1) = 1 := if_pos rfl
    rw [hdir, hsr] at hmv
    rw [hd] at hep
    by_cases g1 : (tc - fc).natAbs = 0 ∧ tr - fr = -1 ∧ getSq s.toPos.board tr tc = none
    · exfalso
      rw [show tr + 1 = fr by omega, show tc = fc by omega, hfrom] at hep
      simp [hc] at hep
    · rw [if_neg g1] at hmv
      by_cases g2 : (tc - fc).natAbs = 0 ∧ fr = 6 ∧ tr - fr = 2 * -1 ∧
          getSq s.toPos.board tr tc = none ∧ getSq s.toPos.board (fr + -1) fc = none
      · exfalso
        have e4 : getSq s.board (fr + -1) fc = none := g2.2.2.2.2
        rw [show tr + 1 = fr + -1 by omega, show tc = fc by omega, e4] at hep
        simp at hep
      · rw [if_neg g2] at hmv
        by_cases g3 : (tc - fc).natAbs = 1 ∧ tr - fr = -1
        · refine ⟨g3.1, by simp [hc]; omega, ?_⟩
          rw [show tr + 1 = fr by omega] at hep
          cases hg : getSq s.board fr tc with
          | none => rw [hg] at hep; simp at hep
          | some pw =>
            rw [hg] at hep
            refine ⟨pw, rfl, ?_⟩
            simpa using hep
        · rw [if_neg g3] at hmv
          exact absurd hmv (by simp)
  | black =>
    rw [hc] at hmv hep
    have hdir : (if Color.black = Color.white then (-1 : Int) else 1) = 1 :=
      if_neg (by simp)
    have hsr : (if Color.black = Color.white then (6 : Int) else 1) = 1 :=
      if_neg (by simp)
    have hd : (if Color.black = Color.white then (1 : Int) else -1) = -1 :=
      if_neg (by simp)
    rw [hdir, hsr] at hmv
    rw [hd] at hep
    by_cases g1 : (tc - fc).natAbs = 0 ∧ tr - fr = 1 ∧ getSq s.toPos.board tr tc = none
    · exfalso
      rw [show tr + -1 = fr by omega, show tc = fc by omega, hfrom] at hep
      simp [hc] at hep
    · rw [if_neg g1] at hmv
      by_cases g2 : (tc - fc).natAbs = 0 ∧ fr = 1 ∧ tr - fr = 2 * 1 ∧
          getSq s.toPos.board tr tc = none ∧ getSq s.toPos.board (fr + 1) fc = none
      · exfalso
        have e4 : getSq s.board (fr + 1) fc = none := g2.2.2.2.2
        rw [show tr + -1 = fr + 1 by omega, show tc = fc by omega, e4] at hep
        simp at hep
      · rw [if_neg g2] at hmv
        by_cases g3 : (tc - fc).natAbs = 1 ∧ tr - fr = 1
        · refine ⟨g3.1, by simp [hc]; omega, ?_⟩
          rw [show tr + -1 = fr by omega] at hep
          cases hg : getSq s.board fr tc with
          | none => rw [hg] at hep; simp at hep
          | some pw =>
            rw [hg] at hep
            refine ⟨pw, rfl, ?_⟩
            simpa using hep
        · rw [if_neg g3] at hmv
          exact absurd hmv (by simp)



/-- Push then pop on the same color list is the identity. -/
theorem CapturedPieces.pushPop (cp : CapturedPieces) (c : Color) (p : Piece) :
    (cp.push c p).popColor c = cp := by
  cases c <;> simp [CapturedPieces.push, CapturedPieces.popColor]

/-- C2 (amended): for every well-formed state and every move accepted by the
legality check, `makeMove` followed by `undoMove` reproduces the board (any
promotion reverted to a pawn, any en-passant-captured pawn restored), the side
to move and the captured-piece lists exactly.  Castling rights are NOT part of
the conclusion: the source's `undoMove` never restores them (its TODO comment),
see the counterexample. -/
theorem makeMove_undoMove_roundtrip (s : GameState) (fr fc tr tc : Int) (promo : PieceType)
    (hwf : boardWF s.board = true) (hepok : epOk s = true) (hcw : castleWF s = true)
    (hv : isValidMove s.toPos fr fc tr tc = true) :
    (undoMove (makeMove s fr fc tr tc promo).2).2.board = s.board ∧
    (undoMove (makeMove s fr fc tr tc promo).2).2.currentPlayer = s.currentPlayer ∧
    (undoMove (makeMove s fr fc tr tc promo).2).2.capturedPieces = s.capturedPieces := by
  obtain ⟨piece, hp0, hcol0, hmv, htgt⟩ := isValidMove_piece hv
  have hp : getSq s.board fr fc = some piece := hp0
  have hcol : piece.color = s.currentPlayer := hcol0
  have hbnd := isValidMove_bounds hv
  have hne := isValidMove_src_ne_dst hv
  rw [makeMove_success s fr fc tr tc promo piece hv hp]
  by_cases hcastle : piece.type = PieceType.king ∧ (tc - fc).natAbs = 2
  · obtain ⟨hking, h2⟩ := hcastle
    obtain ⟨htr, hrights, hbet⟩ := castle_shape hmv hking h2
    obtain ⟨hfr, hfc⟩ := castleWF_king_home hcw hrights hp hking rfl
      ⟨by omega, by omega⟩ ⟨by omega, by omega⟩
    subst htr
    subst hfc
    simp only [GameState.toPos] at hbet
    rw [← hfr] at hbet
    by_cases hside : tc > (4 : Int)
    · have htc : tc = 6 := by omega
      subst htc
      rw [if_pos (by norm_num : (6:Int) > 4)] at hrights hbet
      have hcap : getSq s.board tr 6 = none := hbet 6 (by simp [betweenCols])
      refine ⟨?_, ?_, ?_⟩
      · simp [makeMoveCommit, makeMovePre, undoMove, List.getLast?_concat,
          List.dropLast_concat, hking, h2]
        rw [← hfr]
        have hb5 : getSq s.board tr 5 = none := hbet 5 (by simp [betweenCols])
        have hQ : getSq (setSq (setSq (setSq (setSq (setSq (setSq s.board tr 5
            (getSq s.board tr 7)) tr 7 none) tr 6 (some piece)) tr 4 none) tr 4
            (some piece)) tr 6 (getSq s.board tr 6)) tr 5 = getSq s.board tr 7 := by
          rw [getSq_setSq_ne _ _ _ _ _ _ (by simp)]
          rw [getSq_setSq_ne _ _ _ _ _ _ (by simp)]
          rw [getSq_setSq_ne _ _ _ _ _ _ (by simp)]
          rw [getSq_setSq_ne _ _ _ _ _ _ (by simp)]
          rw [getSq_setSq_ne _ _ _ _ _ _ (by simp)]
          rw [getSq_setSq_self _ _ _ _ hwf (by omega) (by omega) (by omega) (by omega)]
        rw [hQ]
        rw [setSq_setSq_same]
        rw [setSq_comm _ tr 4 tr 6 _ _ (by simp)]
        rw [setSq_setSq_same]
        have hC6 : getSq (setSq (setSq s.board tr 5 (getSq s.board tr 7)) tr 7 none) tr 6 =
            getSq s.board tr 6 := by
          rw [getSq_setSq_ne _ _ _ _ _ _ (by simp)]
          rw [getSq_setSq_ne _ _ _ _ _ _ (by simp)]
        rw [← hC6]
        rw [setSq_getSq_cancel _ _ _ (boardWF_setSq _ _ _ _ (boardWF_setSq _ _ _ _ hwf))
          (by omega) (by omega) (by omega) (by omega)]
        rw [setSq_comm _ tr 4 tr 7 _ _ (by simp)]
        rw [setSq_setSq_same]
        have hR7 : getSq (setSq s.board tr 5 (getSq s.board tr 7)) tr 7 =
            getSq s.board tr 7 := by
          rw [getSq_setSq_ne _ _ _ _ _ _ (by simp)]
        nth_rewrite 2 [← hR7]
        rw [setSq_getSq_cancel _ _ _ (boardWF_setSq _ _ _ _ hwf)
          (by omega) (by omega) (by omega) (by omega)]
        rw [setSq_comm _ tr 4 tr 5 _ _ (by simp)]
        rw [setSq_setSq_same]
        rw [← hb5]
        rw [setSq_getSq_cancel _ _ _ hwf (by omega) (by omega) (by omega) (by omega)]
        rw [← hp]
        rw [setSq_getSq_cancel _ _ _ hwf (by omega) (by omega) (by omega) (by omega)]
      · simp [makeMoveCommit, makeMovePre, undoMove, List.getLast?_concat,
          List.dropLast_concat, hking, h2, Color.other_other]
      · simp [makeMoveCommit, makeMovePre, undoMove, List.getLast?_concat,
          List.dropLast_concat, hking, h2, hcap]
    · have htc : tc = 2 := by omega
      subst htc
      rw [if_neg (by norm_num : ¬ ((2:Int) > 4))] at hrights hbet
      have hcap : getSq s.board tr 2 = none := hbet 2 (by simp [betweenCols])
      refine ⟨?_, ?_, ?_⟩
      · simp [makeMoveCommit, makeMovePre, undoMove, List.getLast?_concat,
          List.dropLast_concat, hking, h2]
        rw [← hfr]
        have hb3 : getSq s.board tr 3 = none := hbet 3 (by simp [betweenCols])
        have hQ : getSq (setSq (setSq (setSq (setSq (setSq (setSq s.board tr 3
            (getSq s.board tr 0)) tr 0 none) tr 2 (some piece)) tr 4 none) tr 4
            (some piece)) tr 2 (getSq s.board tr 2)) tr 3 = getSq s.board tr 0 := by
          rw [getSq_setSq_ne _ _ _ _ _ _ (by simp)]
          rw [getSq_setSq_ne _ _ _ _ _ _ (by simp)]
          rw [getSq_setSq_ne _ _ _ _ _ _ (by simp)]
          rw [getSq_setSq_ne _ _ _ _ _ _ (by simp)]
          rw [getSq_setSq_ne _ _ _ _ _ _ (by simp)]
          rw [getSq_setSq_self _ _ _ _ hwf (by omega) (by omega) (by omega) (by omega)]
        rw [hQ]
        rw [setSq_setSq_same]
        rw [setSq_comm _ tr 4 tr 2 _ _ (by simp)]
        rw [setSq_setSq_same]
        have hC2 : getSq (setSq (setSq s.board tr 3 (getSq s.board tr 0)) tr 0 none) tr 2 =
            getSq s.board tr 2 := by
          rw [getSq_setSq_ne _ _ _ _ _ _ (by simp)]
          rw [getSq_setSq_ne _ _ _ _ _ _ (by simp)]
        rw [← hC2]
        rw [setSq_getSq_cancel _ _ _ (boardWF_setSq _ _ _ _ (boardWF_setSq _ _ _ _ hwf))
          (by omega) (by omega) (by omega) (by omega)]
        rw [setSq_comm _ tr 4 tr 0 _ _ (by simp)]
        rw [setSq_setSq_same]
        have hR0 : getSq (setSq s.board tr 3 (getSq s.board tr 0)) tr 0 =
            getSq s.board tr 0 := by
          rw [getSq_setSq_ne _ _ _ _ _ _ (by simp)]
        nth_rewrite 2 [← hR0]
        rw [setSq_getSq_cancel _ _ _ (boardWF_setSq _ _ _ _ hwf)
          (by omega) (by omega) (by omega) (by omega)]
        rw [setSq_comm _ tr 4 tr 3 _ _ (by simp)]
        rw [setSq_setSq_same]
        rw [← hb3]
        rw [setSq_getSq_cancel _ _ _ hwf (by omega) (by omega) (by omega) (by omega)]
        rw [← hp]
        rw [setSq_getSq_cancel _ _ _ hwf (by omega) (by omega) (by omega) (by omega)]
      · simp [makeMoveCommit, makeMovePre, undoMove, List.getLast?_concat,
          List.dropLast_concat, hking, h2, Color.other_other]
      · simp [makeMoveCommit, makeMovePre, undoMove, List.getLast?_concat,
          List.dropLast_concat, hking, h2, hcap]
  · by_cases hepf : piece.type = PieceType.pawn ∧ s.enPassantTarget = some ⟨tr, tc⟩ ∧
        getSq s.board tr tc = none
    · obtain ⟨hpw, hept, hto⟩ := hepf
      obtain ⟨hc1, hcr, pw, hpwsq, hpwc⟩ := pawn_ep_shape hmv hpw hcol hp hept hto hepok
      have hrow2 : tr + 1 = fr ∨ tr - 1 = fr := by
        by_cases hcw2 : piece.color = Color.white
        · left; rw [if_pos hcw2] at hcr; exact hcr
        · right; rw [if_neg hcw2] at hcr; exact hcr
      have hfrtr : ¬ fr = tr := by omega
      have hfctc : ¬ fc = tc := by omega
      by_cases hprd : (piece.color = Color.white ∧ tr = 0) ∨
          (piece.color = Color.black ∧ tr = 7)
      · have hpe : ({ type := PieceType.pawn, color := piece.color } : Piece) = piece := by
          rcases piece with ⟨t, c⟩
          simp only [Piece.mk.injEq]
          exact ⟨hpw.symm, trivial⟩
        refine ⟨?_, ?_, ?_⟩
        · simp [makeMoveCommit, makeMovePre, undoMove, List.getLast?_concat,
            List.dropLast_concat, hpw, hept, hto, hcr, hpwsq, hprd]
          rw [setSq_setSq_same]
          rw [setSq_comm _ fr fc tr tc _ _ hne]
          rw [setSq_setSq_same]
          have hA : getSq (setSq s.board fr tc none) tr tc = getSq s.board tr tc :=
            getSq_setSq_ne _ _ _ _ _ _ (fun hcon => hfrtr hcon.1)
          have e1 : setSq (setSq s.board fr tc none) tr tc none =
              setSq s.board fr tc none := by
            nth_rewrite 2 [show (none : Option Piece) =
              getSq (setSq s.board fr tc none) tr tc from by rw [hA, hto]]
            exact setSq_getSq_cancel _ _ _ (boardWF_setSq _ _ _ _ hwf)
              (by omega) (by omega) (by omega) (by omega)
          rw [e1]
          rw [setSq_comm _ fr fc fr tc _ _ (fun hcon => hfctc hcon.2)]
          rw [setSq_setSq_same]
          rw [setSq_setSq_same]
          rw [← hpwsq]
          rw [setSq_getSq_cancel _ _ _ hwf (by omega) (by omega) (by omega) (by omega)]
          rw [hpe]
          rw [← hp]
          rw [setSq_getSq_cancel _ _ _ hwf (by omega) (by omega) (by omega) (by omega)]
        · simp [makeMoveCommit, makeMovePre, undoMove, List.getLast?_concat,
            List.dropLast_concat, hpw, hept, hto, hcr, hpwsq, hprd, Color.other_other]
        · simp [makeMoveCommit, makeMovePre, undoMove, List.getLast?_concat,
            List.dropLast_concat, hpw, hept, hto, hcr, hpwsq, hprd,
            CapturedPieces.pushPop]
      · refine ⟨?_, ?_, ?_⟩
        · simp [makeMoveCommit, makeMovePre, undoMove, List.getLast?_concat,
            List.dropLast_concat, hpw, hept, hto, hcr, hpwsq, hprd]
          rw [setSq_setSq_same]
          rw [setSq_comm _ fr fc tr tc _ _ hne]
          rw [setSq_setSq_same]
          have hA : getSq (setSq s.board fr tc none) tr tc = getSq s.board tr tc :=
            getSq_setSq_ne _ _ _ _ _ _ (fun hcon => hfrtr hcon.1)
          have e1 : setSq (setSq s.board fr tc none) tr tc none =
              setSq s.board fr tc none := by
            nth_rewrite 2 [show (none : Option Piece) =
              getSq (setSq s.board fr tc none) tr tc from by rw [hA, hto]]
            exact setSq_getSq_cancel _ _ _ (boardWF_setSq _ _ _ _ hwf)
              (by omega) (by omega) (by omega) (by omega)
          rw [e1]
          rw [setSq_comm _ fr fc fr tc _ _ (fun hcon => hfctc hcon.2)]
          rw [setSq_setSq_same]
          rw [← hpwsq]
          rw [setSq_getSq_cancel _ _ _ hwf (by omega) (by omega) (by omega) (by omega)]
          rw [← hp]
          rw [setSq_getSq_cancel _ _ _ hwf (by omega) (by omega) (by omega) (by omega)]
        · simp [makeMoveCommit, makeMovePre, undoMove, List.getLast?_concat,
            List.dropLast_concat, hpw, hept, hto, hcr, hpwsq, hprd, Color.other_other]
        · simp [makeMoveCommit, makeMovePre, undoMove, List.getLast?_concat,
            List.dropLast_concat, hpw, hept, hto, hcr, hpwsq, hprd,
            CapturedPieces.pushPop]
    · by_cases hpromo : piece.type = PieceType.pawn ∧
          ((piece.color = Color.white ∧ tr = 0) ∨ (piece.color = Color.black ∧ tr = 7))
      · obtain ⟨hpw, hdisj⟩ := hpromo
        have hpe : ({ type := PieceType.pawn, color := piece.color } : Piece) = piece := by
          rcases piece with ⟨t, c⟩
          simp only [Piece.mk.injEq]
          exact ⟨hpw.symm, trivial⟩
        have hepf3 : ¬(s.enPassantTarget = some ⟨tr, tc⟩ ∧
            getSq s.board tr tc = none) :=
          fun h => hepf ⟨hpw, h.1, h.2⟩
        refine ⟨?_, ?_, ?_⟩
        · simp [makeMoveCommit, makeMovePre, undoMove, List.getLast?_concat,
            List.dropLast_concat, hepf3, hpw, hdisj, hcastle]
          rw [setSq_setSq_same]
          rw [setSq_comm _ fr fc tr tc _ _ hne]
          rw [setSq_setSq_same]
          rw [setSq_setSq_same]
          rw [setSq_getSq_cancel s.board tr tc hwf (by omega) (by omega) (by omega)
            (by omega)]
          rw [hpe]
          rw [← hp]
          rw [setSq_getSq_cancel s.board fr fc hwf (by omega) (by omega) (by omega)
            (by omega)]
        · simp [makeMoveCommit, makeMovePre, undoMove, List.getLast?_concat,
            List.dropLast_concat, hepf3, hpw, hdisj, hcastle, Color.other_other]
        · cases hcap : getSq s.board tr tc with
          | none =>
            have hepf4 : ¬(s.enPassantTarget = some (⟨tr, tc⟩ : Coord)) :=
              fun h => hepf ⟨hpw, h, hcap⟩
            simp [makeMoveCommit, makeMovePre, undoMove, List.getLast?_concat,
              List.dropLast_concat, hepf4, hpw, hdisj, hcastle, hcap]
          | some cp =>
            simp [makeMoveCommit, makeMovePre, undoMove, List.getLast?_concat,
              List.dropLast_concat, hepf3, hpw, hdisj, hcastle, hcap,
              CapturedPieces.pushPop]
      · refine ⟨?_, ?_, ?_⟩
        · simp only [makeMoveCommit, makeMovePre, if_neg hepf, if_neg hpromo]
          simp only [undoMove, List.getLast?_concat, List.dropLast_concat]
          simp only [if_neg hcastle]
          rw [setSq_setSq_same]
          rw [setSq_comm _ fr fc tr tc _ _ hne]
          rw [setSq_setSq_same]
          rw [setSq_getSq_cancel s.board tr tc hwf (by omega) (by omega) (by omega)
            (by omega)]
          rw [← hp]
          rw [setSq_getSq_cancel s.board fr fc hwf (by omega) (by omega) (by omega)
            (by omega)]
        · simp [makeMoveCommit, makeMovePre, undoMove, List.getLast?_concat,
            List.dropLast_concat, hepf, hpromo, hcastle, Color.other_other]
        · cases hcap : getSq s.board tr tc with
          | none =>
            have hepf2 : ¬(piece.type = PieceType.pawn ∧
                s.enPassantTarget = some ⟨tr, tc⟩) :=
              fun h => hepf ⟨h.1, h.2, hcap⟩
            simp [makeMoveCommit, makeMovePre, undoMove, List.getLast?_concat,
              List.dropLast_concat, hepf2, hpromo, hcastle, hcap]
          | some cp =>
            simp [makeMoveCommit, makeMovePre, undoMove, List.getLast?_concat,
              List.dropLast_concat, hepf, hpromo, hcastle, hcap,
              CapturedPieces.pushPop]


theorem list_map_self {α : Type} (f : α → α) (h : ∀ a, f a = a) :
    ∀ l : List α, l.map f = l
  | [] => rfl
  | a :: t => by rw [List.map_cons, h, list_map_self f h t]

/-- The clone rebuilds every live field exactly: in the value semantics of
the embedding it is the identity. -/
theorem cloneGameState_eq (s : GameState) : cloneGameState s = s := by
  rcases s with ⟨b, cp, caps, gs, mh, fifty, three, cr, epT⟩
  have hb : b.map (fun row => row.map (fun cell =>
      match cell with
      | some piece => some { type := piece.type, color := piece.color }
      | none => none)) = b := by
    refine list_map_self _ (fun row => ?_) b
    refine list_map_self _ (fun cell => ?_) row
    rcases cell with _ | p <;> rfl
  exact congrArg (fun x => GameState.mk x cp caps gs mh fifty three cr epT) hb

/-- On a node with no children whose state admits no legal move, an
iteration either throws (`selectBestChild` reduces an empty array) or only
bumps the node's statistics: no child is ever added. -/
theorem runIter_stuck (fuel : Nat) (node : MCTSNodeM) (r : Rand)
    (hch : node.children = [])
    (hmv : getAllValidMoves node.state.toPos node.state.currentPlayer = []) :
    runIter fuel node r = .error () ∨
    ∃ res r', runIter fuel node r = .ok (node.bump res, res, r') := by
  cases fuel with
  | zero => left; rfl
  | succ fuel' =>
    by_cases ht : node.isTerminal = true
    · right
      rcases hsim : simulate node r with ⟨res, r1⟩
      refine ⟨res, r1, ?_⟩
      simp [runIter, ht, hsim]
    · left
      have hfe : node.isFullyExpanded = true := by
        simp [MCTSNodeM.isFullyExpanded, hch, hmv]
      simp [runIter, ht, hfe, hch]

theorem MCTSNodeM.bump_children (node : MCTSNodeM) (res : Rat) :
    (node.bump res).children = node.children := by
  rcases node with ⟨s, m, c, v, w⟩
  rfl

theorem MCTSNodeM.bump_state (node : MCTSNodeM) (res : Rat) :
    (node.bump res).state = node.state := by
  rcases node with ⟨s, m, c, v, w⟩
  rfl

/-- The iteration loop started on a childless, moveless root either throws
or ends with the root still childless. -/
theorem searchLoop_stuck (n : Nat) (node : MCTSNodeM) (r : Rand)
    (hch : node.children = [])
    (hmv : getAllValidMoves node.state.toPos node.state.currentPlayer = []) :
    searchLoop n node r = .error () ∨
    ∃ node' r', searchLoop n node r = .ok (node', r') ∧ node'.children = [] := by
  induction n generalizing node r with
  | zero => right; exact ⟨node, r, rfl, hch⟩
  | succ n ih =>
    rcases runIter_stuck (maxSimulations + 1) node r hch hmv with herr | ⟨res, r', hok⟩
    · left
      simp [searchLoop, herr]
    · have hch' : (node.bump res).children = [] := by
        rw [MCTSNodeM.bump_children]; exact hch
      have hmv' : getAllValidMoves (node.bump res).state.toPos
          (node.bump res).state.currentPlayer = [] := by
        rw [MCTSNodeM.bump_state]; exact hmv
      rcases ih (node.bump res) r' hch' hmv' with h1 | ⟨n', r'', h2, h3⟩
      · left
        simp [searchLoop, hok, h1]
      · right
        exact ⟨n', r'', by simp [searchLoop, hok, h2], h3⟩

/-- C5: refuted as stated.  On a state whose side to move has no legal move,
`search` does not return a null move: the root never acquires children, so
the final `children.reduce` with no seed throws, and the whole `search` call
rejects — for every iteration count and every oracle.  `getBestMove` then
answers null only by catching that exception as an engine failure and
falling through its random-move fallback, which finds no move. -/
theorem search_no_moves (s : GameState) (iters : Nat) (r : Rand)
    (hmv : getAllValidMoves s.toPos s.currentPlayer = []) :
    search s iters r = .error () ∧ getBestMove s iters r = none := by
  have hst : (MCTSNodeM.new (cloneGameState s) none).state = s := by
    rw [show (MCTSNodeM.new (cloneGameState s) none).state = cloneGameState s from rfl]
    exact cloneGameState_eq s
  have hroot : (MCTSNodeM.new (cloneGameState s) none).children = [] := rfl
  have hrmv : getAllValidMoves (MCTSNodeM.new (cloneGameState s) none).state.toPos
      (MCTSNodeM.new (cloneGameState s) none).state.currentPlayer = [] := by
    rw [hst]; exact hmv
  have hsearch : search s iters r = .error () := by
    rcases searchLoop_stuck (min iters maxSimulations)
        (MCTSNodeM.new (cloneGameState s) none) r hroot hrmv with
      herr | ⟨n', r', hok, hch⟩
    · simp [search, herr]
    · simp [search, hok, hch, selectMostVisited]
  refine ⟨hsearch, ?_⟩
  simp [getBestMove, hsearch, hmv]

/-- C6: the search reads the authoritative state only to clone it into the
root node — every `makeMove` in `runIter`, `rollout` and
`selectSimulationMove` runs on a `cloneGameState` copy — and the clone
rebuilds every live field exactly, so the search result is a pure function
of a complete, independent copy and the input state is untouched. -/
theorem search_on_clones (s : GameState) (iters : Nat) (r : Rand) :
    cloneGameState s = s ∧ search s iters r = search (cloneGameState s) iters r :=
  ⟨cloneGameState_eq s, by rw [cloneGameState_eq]⟩

section SlowConcreteEvaluations

set_option maxRecDepth 4000000 in
set_option maxHeartbeats 4000000 in
/-- **C7.** In the standard initial position the legal-move generator
produces exactly 20 moves for White, and summing the number of legal
replies over all 20 resulting positions gives exactly 400 (perft(2)). -/
theorem perft_initial_position :
    legalMoveCount initialGameState = 20 ∧ perft2Total initialGameState = 400 := by
  constructor
  · decide
  · decide

set_option maxRecDepth 4000000 in
set_option maxHeartbeats 1000000 in
/-- **C8 counterexample.** At the start of the game the sixth FEN field is
`"0"`, not `"1"` as the claim states; and after the double pawn push
e2–e4 the en-passant field is the internal digit pair `"54"` (row 5,
column 4), not a square in algebraic notation. -/
theorem toFEN_counterexample :
    toFEN initialGameState =
      "rnbqkbnr/pppppppp/8/8/8/8/PPPPPPPP/RNBQKBNR w KQkq - 0 0" ∧
    toString (fullmoveField initialGameState.moveHistory.length) = "0" ∧
    toFEN (makeMove initialGameState 6 4 4 4).2 =
      "rnbqkbnr/pppppppp/8/8/4P3/8/PPPP1PPP/RNBQKBNR b KQkq 54 0 1" ∧
    epField (makeMove initialGameState 6 4 4 4).2.enPassantTarget = "54" := by
  refine ⟨by decide, by decide, by decide, by decide⟩

set_option maxRecDepth 4000000 in
set_option maxHeartbeats 2000000 in
/-- **C3 counterexample.** A committed quiet rook move brings the halfmove
counter to exactly 50 plies; the side to move has legal replies, is not in
check, and no repetition or material condition holds — yet the classifier
reports `draw`.  The claim asserts a state with the counter in 50..99 and
no other draw condition is *not* a draw (threshold 100): false. -/
theorem halfmove_draw_counterexample :
    isValidMove c3Base.toPos 4 4 4 3 = true ∧
    c3After.fiftyMoveRule = 50 ∧
    hasValidMoves c3After.toPos c3After.currentPlayer = true ∧
    isInCheck c3After.toPos c3After.currentPlayer = false ∧
    lookupCount c3Base.threefoldRepetition (positionKey c3After.toPos) = 0 ∧
    isInsufficientMaterial c3After.board = false ∧
    c3After.gameState = Status.draw := by
  refine ⟨by decide, by decide, by decide, by decide, by decide, by decide, by decide⟩

set_option maxRecDepth 4000000 in
set_option maxHeartbeats 2000000 in
/-- Witness for C3 (amended): a counter of 50 with moves available and no
check classifies as `draw`; a checked king with moves available classifies
as `check` (check priority over the draw rules). -/
theorem halfmove_draw_at_50_witness :
    computeGameState c3DrawState = Status.draw ∧
    computeGameState c3CheckState = Status.check :=
  ⟨halfmove_draw_at_50.1 c3DrawState (by decide) (by decide) (by decide),
   halfmove_draw_at_50.2.1 c3CheckState (by decide) (by decide)⟩

set_option maxRecDepth 4000000 in
set_option maxHeartbeats 4000000 in
/-- **C4 counterexample.** Twelve plies of knight shuffling reach the
starting position for the third time since it was first left (it also
stood at ply 0): its signature equals the ones after plies 4 and 8, so the
position has occurred 3 times counting the occurrence created by ply 12
(4 times counting ply 0).  No earlier classifier rule fires, yet the
status is `playing`, not `draw`: the table consulted by the classifier
held only the 2 occurrences recorded after plies 4 and 8. -/
theorem threefold_counterexample :
    positionKey c4g4.toPos = positionKey c4g12.toPos ∧
    positionKey c4g8.toPos = positionKey c4g12.toPos ∧
    lookupCount c4g11.threefoldRepetition (positionKey c4g12.toPos) = 2 ∧
    lookupCount c4g12.threefoldRepetition (positionKey c4g12.toPos) = 3 ∧
    hasValidMoves c4g12.toPos c4g12.currentPlayer = true ∧
    isInCheck c4g12.toPos c4g12.currentPlayer = false ∧
    c4g12.fiftyMoveRule = 12 ∧
    isInsufficientMaterial c4g12.board = false ∧
    c4g12.gameState = Status.playing := by
  refine ⟨by decide, by decide, by decide, by decide, by decide, by decide, by decide,
    by decide, by decide⟩

set_option maxRecDepth 4000000 in
set_option maxHeartbeats 2000000 in
/-- Witness for C4 (amended): with the key of the upcoming position already
at count 3, the committed knight move classifies as `draw`. -/
theorem threefold_requires_three_prior_witness :
    (makeMove c4WitBase 7 1 5 2).2.gameState = Status.draw :=
  ((threefold_requires_three_prior c4WitBase 7 1 5 2 PieceType.queen
      ⟨PieceType.knight, Color.white⟩ (by decide) (by decide)
      (makeMove c4WitBase 7 1 5 2).2 rfl).2
    (by decide) (by decide) (by decide) (by decide)).mpr (by decide)

set_option maxRecDepth 4000000 in
set_option maxHeartbeats 2000000 in
/-- Witness for C9: from a full-rights home position, the king move e1–d1
clears both white rights, and the rook move h1–h2 clears white's kingside
right. -/
theorem castlingRights_monotone_witness :
    (makeMove c9State 7 4 7 3).2.castlingRights.get Color.white = ⟨false, false⟩ ∧
    (makeMove c9State 7 7 6 7).2.castlingRights.white.kingside = false :=
  ⟨castlingRights_monotone.2.1 c9State 7 4 7 3 PieceType.queen
      ⟨PieceType.king, Color.white⟩ (by decide) (by decide) rfl,
   (castlingRights_monotone.2.2 c9State 7 7 6 7 PieceType.queen
      ⟨PieceType.rook, Color.white⟩ (by decide) (by decide) rfl).2.1
     ⟨rfl, rfl, rfl⟩⟩

set_option maxRecDepth 4000000 in
set_option maxHeartbeats 4000000 in
/-- C2 witness: the round-trip law applied at a concrete input, the move
e2-e4 from the initial position. -/
theorem makeMove_undoMove_roundtrip_witness :
    (undoMove (makeMove initialGameState 6 4 4 4 PieceType.queen).2).2.board =
        initialGameState.board ∧
    (undoMove (makeMove initialGameState 6 4 4 4 PieceType.queen).2).2.currentPlayer =
        initialGameState.currentPlayer ∧
    (undoMove (makeMove initialGameState 6 4 4 4 PieceType.queen).2).2.capturedPieces =
        initialGameState.capturedPieces :=
  makeMove_undoMove_roundtrip initialGameState 6 4 4 4 PieceType.queen
    (by decide) (by decide) (by decide) (by decide)

set_option maxRecDepth 4000000 in
set_option maxHeartbeats 4000000 in
/-- C2 counterexample to the unamended claim: after 1.e4 a6 the king move
Ke1-e2 is legal and clears White's castling rights; `undoMove` restores the
board, the side to move and the captured-piece lists, but the castling rights
stay lost (`undoMove` never writes them back). -/
theorem undo_castling_rights_counterexample :
    (makeMove c2s2 7 4 6 4).1 = true ∧
    c2u.board = c2s2.board ∧
    c2u.currentPlayer = c2s2.currentPlayer ∧
    c2u.capturedPieces = c2s2.capturedPieces ∧
    ¬ c2u.castlingRights = c2s2.castlingRights := by
  decide

set_option maxRecDepth 4000000 in
set_option maxHeartbeats 4000000 in
/-- C5 witness: the fool's mate position has no legal moves; on it `search`
throws and `getBestMove` answers null — here at iteration budget 1000 and
the all-zero oracle. -/
theorem search_no_moves_witness :
    getAllValidMoves c5Mate.toPos c5Mate.currentPlayer = [] ∧
    search c5Mate 1000 ([] : Rand) = Except.error () ∧
    getBestMove c5Mate 1000 ([] : Rand) = none := by
  refine ⟨by decide, (search_no_moves c5Mate 1000 ([] : Rand) (by decide)).1,
    (search_no_moves c5Mate 1000 ([] : Rand) (by decide)).2⟩

end SlowConcreteEvaluations

end Chess2
